import Mathlib

/-!
# Verification of the PDF outline extractor core
  (`src/pdf_outline_extractor/extractor_new.py`, class `PDFOutlineExtractor`)

A shallow embedding of the heading-classification pipeline.  Python strings
are modeled as `List Char`; Python floats (font sizes, coordinates) as `ℚ`;
Python dicts holding text spans as a fixed record whose optional fields
(`x0`, `y0`, `size`) mirror dict keys that `dict.get` may find missing.
Regular-expression operations from the source are hand-translated into
run-scanning functions on character lists with the same observable
behaviour; character classes (`\w`, `\s`, `str.lower`) are modeled on the
ASCII range.  Python exceptions are modeled as `Except` values.
-/

set_option maxHeartbeats 1000000
set_option maxRecDepth 10000

namespace PdfExtract

/-- Python strings, as character lists. -/
abbrev PyStr := List Char

/-! ### Kernel-evaluable rational arithmetic

The standard `ℚ` operations (`Rat.add`, `Rat.mul`, …) are marked
`@[irreducible]`, which stops `decide` from evaluating concrete pipeline
runs.  The wrappers below compute the same values through `Rat.divInt`
(which does reduce); the `q*_eq`/`q*_iff` lemmas prove they agree with the
standard operations, so using them in the embedding does not change any
value. -/

/-- `a + b` on `ℚ`, kernel-evaluable. -/
def qadd (a b : ℚ) : ℚ := Rat.divInt (a.num * b.den + b.num * a.den) (a.den * b.den)

/-- `a - b` on `ℚ`, kernel-evaluable. -/
def qsub (a b : ℚ) : ℚ := Rat.divInt (a.num * b.den - b.num * a.den) (a.den * b.den)

/-- `a * b` on `ℚ`, kernel-evaluable. -/
def qmul (a b : ℚ) : ℚ := Rat.divInt (a.num * b.num) (a.den * b.den)

/-- `a / b` on `ℚ`, kernel-evaluable (`0` when `b = 0`, as `Rat.div`). -/
def qdiv (a b : ℚ) : ℚ := Rat.divInt (a.num * b.den) (a.den * b.num)

/-- `a ≤ b` on `ℚ` as a boolean, kernel-evaluable. -/
def qle (a b : ℚ) : Bool := decide (a.num * b.den ≤ b.num * a.den)

/-- `a < b` on `ℚ` as a boolean, kernel-evaluable. -/
def qlt (a b : ℚ) : Bool := decide (a.num * b.den < b.num * a.den)

/-- `|a|` on `ℚ`, kernel-evaluable. -/
def qabs (a : ℚ) : ℚ := Rat.divInt |a.num| a.den

/-- `max a b` on `ℚ`, kernel-evaluable. -/
def qmax (a b : ℚ) : ℚ := if qle a b then b else a

theorem num_cast_eq (a : ℚ) : ((a.num : ℚ)) = a * a.den :=
  (div_eq_iff (Nat.cast_ne_zero.2 (Rat.den_ne_zero a))).1 (Rat.num_div_den a)

theorem qadd_eq (a b : ℚ) : qadd a b = a + b := by
  have hda : ((a.den : ℚ)) ≠ 0 := Nat.cast_ne_zero.2 (Rat.den_ne_zero a)
  have hdb : ((b.den : ℚ)) ≠ 0 := Nat.cast_ne_zero.2 (Rat.den_ne_zero b)
  rw [qadd, Rat.divInt_eq_div]
  push_cast
  rw [div_eq_iff (mul_ne_zero hda hdb), num_cast_eq, num_cast_eq]
  ring

theorem qsub_eq (a b : ℚ) : qsub a b = a - b := by
  have hda : ((a.den : ℚ)) ≠ 0 := Nat.cast_ne_zero.2 (Rat.den_ne_zero a)
  have hdb : ((b.den : ℚ)) ≠ 0 := Nat.cast_ne_zero.2 (Rat.den_ne_zero b)
  rw [qsub, Rat.divInt_eq_div]
  push_cast
  rw [div_eq_iff (mul_ne_zero hda hdb), num_cast_eq, num_cast_eq]
  ring

theorem qmul_eq (a b : ℚ) : qmul a b = a * b := by
  have hda : ((a.den : ℚ)) ≠ 0 := Nat.cast_ne_zero.2 (Rat.den_ne_zero a)
  have hdb : ((b.den : ℚ)) ≠ 0 := Nat.cast_ne_zero.2 (Rat.den_ne_zero b)
  rw [qmul, Rat.divInt_eq_div]
  push_cast
  rw [div_eq_iff (mul_ne_zero hda hdb), num_cast_eq, num_cast_eq]
  ring

theorem qdiv_eq (a b : ℚ) : qdiv a b = a / b := by
  rw [qdiv]
  exact (Rat.div_def' a b).symm

theorem qle_iff (a b : ℚ) : qle a b = true ↔ a ≤ b := by
  rw [qle, decide_eq_true_iff, Rat.le_def]

theorem qlt_iff (a b : ℚ) : qlt a b = true ↔ a < b := by
  rw [qlt, decide_eq_true_iff, Rat.lt_def]

theorem qabs_eq (a : ℚ) : qabs a = |a| := by
  rcases le_or_lt 0 a with h | h
  · rw [abs_of_nonneg h, qabs, abs_of_nonneg (Rat.num_nonneg.2 h), Rat.divInt_self]
  · rw [abs_of_neg h, qabs, abs_of_neg (Rat.num_neg.2 h), ← Rat.neg_divInt,
      Rat.divInt_self]

theorem qmax_eq (a b : ℚ) : qmax a b = max a b := by
  rw [qmax]
  split
  · rename_i h
    exact (max_eq_right ((qle_iff a b).1 h)).symm
  · rename_i h
    have : ¬ a ≤ b := fun hc => h ((qle_iff a b).2 hc)
    exact (max_eq_left (le_of_not_le this)).symm

/-- Python whitespace (for `\s`, `str.strip()`, `str.split()`), ASCII range. -/
def isSpacePy (c : Char) : Bool :=
  c == ' ' || c == '\t' || c == '\n' || c == '\r' || c == '\x0b' || c == '\x0c'

/-- Python `str.isdigit` / `\d` on the ASCII range. -/
def isDigitPy (c : Char) : Bool := '0' ≤ c && c ≤ '9'

/-- Python `\w` (word character) on the ASCII range: letters, digits, underscore. -/
def isWordPy (c : Char) : Bool := c.isAlpha || isDigitPy c || c == '_'

/-- Python `str.isupper` for a single character, ASCII range. -/
def isUpperPy (c : Char) : Bool := 'A' ≤ c && c ≤ 'Z'

/-- Python `str.islower` for a single character, ASCII range. -/
def isLowerCasedPy (c : Char) : Bool := 'a' ≤ c && c ≤ 'z'

/-- Whether a character is cased (ASCII range), for `str.islower`/`str.isupper`. -/
def isCasedPy (c : Char) : Bool := isUpperPy c || isLowerCasedPy c

/-- Python `str.lower` for one character, ASCII range. -/
def toLowerPy (c : Char) : Char :=
  if c = 'A' then 'a' else if c = 'B' then 'b' else if c = 'C' then 'c'
  else if c = 'D' then 'd' else if c = 'E' then 'e' else if c = 'F' then 'f'
  else if c = 'G' then 'g' else if c = 'H' then 'h' else if c = 'I' then 'i'
  else if c = 'J' then 'j' else if c = 'K' then 'k' else if c = 'L' then 'l'
  else if c = 'M' then 'm' else if c = 'N' then 'n' else if c = 'O' then 'o'
  else if c = 'P' then 'p' else if c = 'Q' then 'q' else if c = 'R' then 'r'
  else if c = 'S' then 's' else if c = 'T' then 't' else if c = 'U' then 'u'
  else if c = 'V' then 'v' else if c = 'W' then 'w' else if c = 'X' then 'x'
  else if c = 'Y' then 'y' else if c = 'Z' then 'z' else c

/-- Python `str.lower` on a string (ASCII range). -/
def lowerPy (s : PyStr) : PyStr := s.map toLowerPy

/-- Python `str.lstrip()`. -/
def lstripPy (s : PyStr) : PyStr := s.dropWhile isSpacePy

/-- Python `str.rstrip()`. -/
def rstripPy (s : PyStr) : PyStr := ((s.reverse).dropWhile isSpacePy).reverse

/-- Python `str.strip()`. -/
def stripPy (s : PyStr) : PyStr := rstripPy (lstripPy s)

/-- Python `needle in haystack` (substring test). -/
def containsSub (needle hay : PyStr) : Bool :=
  hay.tails.any (fun t => needle.isPrefixOf t)

/-- Python `str.startswith`. -/
def startsWithPy (needle s : PyStr) : Bool := needle.isPrefixOf s

/-- Python `str.endswith`. -/
def endsWithPy (needle s : PyStr) : Bool := needle.reverse.isPrefixOf s.reverse

/-- Python `str.count(sub)` for a single-character needle (the only use in the source). -/
def countCharPy (c : Char) (s : PyStr) : ℕ := (s.filter (fun d => d == c)).length

/-- Helper for `str.split()`: accumulates the current word (reversed). -/
def splitWsAux (w : PyStr) : PyStr → List PyStr
  | [] => if w = [] then [] else [w.reverse]
  | a :: t =>
      if isSpacePy a then
        if w = [] then splitWsAux [] t else w.reverse :: splitWsAux [] t
      else splitWsAux (a :: w) t

/-- Python `str.split()` (split on whitespace runs, dropping empties). -/
def splitWsPy (s : PyStr) : List PyStr := splitWsAux [] s

/-- Python `sep.join(parts)` for a one-character separator. -/
def joinWithChar (sep : Char) : List PyStr → PyStr
  | [] => []
  | [l] => l
  | l :: ls => l ++ sep :: joinWithChar sep ls

/-- Python `' '.join(parts)`. -/
def joinSpace (ls : List PyStr) : PyStr := joinWithChar ' ' ls

/-- Stable insertion used by the embedding of Python's stable `sorted`/`list.sort`:
an element is placed before the first later element it compares `le`-strictly
before, and after all elements that tie with it that came earlier. -/
def insertBy (le : α → α → Bool) (x : α) : List α → List α
  | [] => [x]
  | y :: t => if le x y then x :: y :: t else y :: insertBy le x t

/-- Stable sort (embedding of Python `sorted(..., key=...)`; Python's sort is stable). -/
def sortBy (le : α → α → Bool) : List α → List α
  | [] => []
  | x :: t => insertBy le x (sortBy le t)

/-! ## `normalize_text` (source lines 81–119)

The source applies, in order:
1. `re.sub(r'(.)\1{2,}', r'\1', text)` — every maximal run of three or more
   equal characters other than `'\n'` (`.` does not match a newline) collapses
   to a single copy.  (Leftmost-first matching consumes exactly the maximal
   runs: a match can only start at the first position of a run.)
2. `re.sub(r'\b(\w)\1{3,}\b', r'\1', text)` — a maximal run of four or more
   equal word characters delimited by word boundaries on both sides collapses
   to one copy.
3. `text.split('\n')`, per line `re.sub(r' +', ' ', line)`, rejoined with
   `'\n'` — runs of plain spaces collapse to one space, newlines preserved.

Each substitution is embedded as a structural run-scanner. -/

/-- What step 1 emits for a finished maximal run of `n` copies of `c`. -/
def emitRun (c : Char) (n : ℕ) : PyStr :=
  if 3 ≤ n ∧ c ≠ '\n' then [c] else List.replicate n c

/-- Scanner for step 1: `n ≥ 1` copies of `c` are pending, the rest follows. -/
def crRun (c : Char) (n : ℕ) : PyStr → PyStr
  | [] => emitRun c n
  | d :: t => if d = c then crRun c (n + 1) t else emitRun c n ++ crRun d 1 t

/-- Step 1 of `normalize_text`: `re.sub(r'(.)\1{2,}', r'\1', text)`. -/
def collapseRepeats : PyStr → PyStr
  | [] => []
  | a :: t => crRun a 1 t

/-- What step 2 emits for a finished maximal run: collapse only when the run is a
word character repeated at least 4 times with word boundaries on both sides
(`pw` = the character before the run is a word character; `boundaryAfter` = the
run is followed by a non-word character or the end of the string). -/
def emitWordRun (pw : Bool) (c : Char) (n : ℕ) (boundaryAfter : Bool) : PyStr :=
  if isWordPy c && !pw && decide (4 ≤ n) && boundaryAfter then [c]
  else List.replicate n c

/-- Scanner for step 2. -/
def wcRun (pw : Bool) (c : Char) (n : ℕ) : PyStr → PyStr
  | [] => emitWordRun pw c n true
  | d :: t =>
      if d = c then wcRun pw c (n + 1) t
      else emitWordRun pw c n (!isWordPy d) ++ wcRun (isWordPy c) d 1 t

/-- Step 2 of `normalize_text`: `re.sub(r'\b(\w)\1{3,}\b', r'\1', text)`. -/
def collapseWordRuns : PyStr → PyStr
  | [] => []
  | a :: t => wcRun false a 1 t

/-- Per line, step 3 of `normalize_text`: `re.sub(r' +', ' ', line)`. -/
def collapseSpaces : PyStr → PyStr
  | [] => []
  | [a] => [a]
  | a :: b :: t =>
      if a = ' ' ∧ b = ' ' then collapseSpaces (b :: t)
      else a :: collapseSpaces (b :: t)

/-- Python `text.split('\n')` (empty pieces preserved). -/
def splitLines : PyStr → List PyStr
  | [] => [[]]
  | a :: t =>
      match splitLines t with
      | [] => []
      | h :: rt => if a = '\n' then [] :: h :: rt else (a :: h) :: rt

/-- Embedding of `PDFOutlineExtractor.normalize_text` (source lines 81–119). -/
def normalize_text (text : PyStr) : PyStr :=
  if text = [] then []
  else
    joinWithChar '\n'
      ((splitLines (collapseWordRuns (collapseRepeats text))).map collapseSpaces)

/-! ## Invariants of normalized text

`NoTriple`: no three consecutive equal characters other than `'\n'` (the state
step 1 establishes).  `NoDbSpace`: no two consecutive spaces (established by
step 3).  Both are preserved by the later steps, which makes a second run of
`normalize_text` the identity. -/

/-- No three consecutive equal characters other than newline. -/
def NoTriple : PyStr → Prop
  | a :: b :: c :: t => ¬(a = b ∧ b = c ∧ a ≠ '\n') ∧ NoTriple (b :: c :: t)
  | _ => True

/-- No two consecutive spaces. -/
def NoDbSpace : PyStr → Prop
  | a :: b :: t => ¬(a = ' ' ∧ b = ' ') ∧ NoDbSpace (b :: t)
  | _ => True

theorem noTriple_cons_iff {a : Char} {R : PyStr} :
    NoTriple (a :: R) ↔
      (∀ x y rt, R = x :: y :: rt → ¬(a = x ∧ x = y ∧ a ≠ '\n')) ∧ NoTriple R := by
  cases R with
  | nil => simp [NoTriple]
  | cons x R' =>
    cases R' with
    | nil => simp [NoTriple]
    | cons y rt =>
      simp only [NoTriple]
      constructor
      · rintro ⟨h1, h2⟩
        refine ⟨?_, h2⟩
        rintro x' y' rt' heq
        cases heq
        exact h1
      · rintro ⟨h1, h2⟩
        exact ⟨h1 x y rt rfl, h2⟩

theorem noDbSpace_cons_iff {a : Char} {R : PyStr} :
    NoDbSpace (a :: R) ↔
      (∀ x rt, R = x :: rt → ¬(a = ' ' ∧ x = ' ')) ∧ NoDbSpace R := by
  cases R with
  | nil => simp [NoDbSpace]
  | cons x R' =>
    simp only [NoDbSpace]
    constructor
    · rintro ⟨h1, h2⟩
      refine ⟨?_, h2⟩
      rintro x' rt' heq
      cases heq
      exact h1
    · rintro ⟨h1, h2⟩
      exact ⟨h1 x R' rfl, h2⟩

theorem NoTriple.tailNT {a : Char} {R : PyStr} (h : NoTriple (a :: R)) : NoTriple R :=
  (noTriple_cons_iff.1 h).2

theorem NoDbSpace.tailND {a : Char} {R : PyStr} (h : NoDbSpace (a :: R)) : NoDbSpace R :=
  (noDbSpace_cons_iff.1 h).2

theorem noTriple_append_left {xs ys : PyStr} (h : NoTriple (xs ++ ys)) : NoTriple xs := by
  induction xs with
  | nil => trivial
  | cons a xs ih =>
    rw [List.cons_append, noTriple_cons_iff] at h
    rw [noTriple_cons_iff]
    refine ⟨?_, ih h.2⟩
    rintro x y rt heq
    exact h.1 x y (rt ++ ys) (by rw [heq]; simp)

theorem noTriple_append_right {xs ys : PyStr} (h : NoTriple (xs ++ ys)) : NoTriple ys := by
  induction xs with
  | nil => exact h
  | cons a xs ih => exact ih (List.cons_append a xs ys ▸ h).tailNT

theorem noDbSpace_append_left {xs ys : PyStr} (h : NoDbSpace (xs ++ ys)) : NoDbSpace xs := by
  induction xs with
  | nil => trivial
  | cons a xs ih =>
    rw [List.cons_append, noDbSpace_cons_iff] at h
    rw [noDbSpace_cons_iff]
    refine ⟨?_, ih h.2⟩
    rintro x rt heq
    exact h.1 x (rt ++ ys) (by rw [heq]; simp)

theorem noTriple_prefix {p l : PyStr} (hp : p <+: l) (h : NoTriple l) : NoTriple p := by
  obtain ⟨q, rfl⟩ := hp
  exact noTriple_append_left h

theorem noDbSpace_prefix {p l : PyStr} (hp : p <+: l) (h : NoDbSpace l) : NoDbSpace p := by
  obtain ⟨q, rfl⟩ := hp
  exact noDbSpace_append_left h

theorem noTriple_replicate_nl (n : ℕ) : NoTriple (List.replicate n '\n') := by
  induction n with
  | zero => trivial
  | succ k ih =>
    rw [List.replicate_succ, noTriple_cons_iff]
    refine ⟨?_, ih⟩
    rintro x y rt heq ⟨h1, h2, h3⟩
    exact h3 rfl

theorem noTriple_replicate_le2 (c : Char) {n : ℕ} (hn : n ≤ 2) :
    NoTriple (List.replicate n c) := by
  interval_cases n <;> simp [NoTriple, List.replicate]

theorem not_noTriple_replicate {c : Char} {n : ℕ} (hn : 3 ≤ n) (hc : c ≠ '\n') :
    ¬ NoTriple (List.replicate n c) := by
  obtain ⟨k, rfl⟩ : ∃ k, n = k + 3 := ⟨n - 3, by omega⟩
  intro h
  rw [show k + 3 = (k + 2) + 1 by omega, List.replicate_succ,
    show k + 2 = (k + 1) + 1 by omega, List.replicate_succ,
    List.replicate_succ] at h
  exact h.1 ⟨rfl, rfl, hc⟩

theorem noTriple_emitRun (c : Char) (n : ℕ) : NoTriple (emitRun c n) := by
  unfold emitRun
  split
  · simp [NoTriple]
  · rename_i hcond
    by_cases hc : c = '\n'
    · subst hc; exact noTriple_replicate_nl n
    · exact noTriple_replicate_le2 c (by by_contra hn; exact hcond ⟨by omega, hc⟩)

theorem mem_emitRun {x c : Char} {n : ℕ} (h : x ∈ emitRun c n) : x = c := by
  unfold emitRun at h
  split at h
  · simpa using h
  · exact List.eq_of_mem_replicate h

theorem emitRun_cons (c : Char) {n : ℕ} (hn : 1 ≤ n) :
    ∃ r, emitRun c n = c :: r := by
  unfold emitRun
  split
  · exact ⟨[], rfl⟩
  · obtain ⟨k, rfl⟩ : ∃ k, n = k + 1 := ⟨n - 1, by omega⟩
    exact ⟨List.replicate k c, by rw [List.replicate_succ]⟩

theorem crRun_cons (t : PyStr) : ∀ c : Char, ∀ n : ℕ, 1 ≤ n →
    ∃ r, crRun c n t = c :: r := by
  induction t with
  | nil =>
    intro c n hn
    obtain ⟨r, hr⟩ := emitRun_cons c hn
    exact ⟨r, by rw [crRun, hr]⟩
  | cons d t ih =>
    intro c n hn
    by_cases hd : d = c
    · subst hd
      obtain ⟨r, hr⟩ := ih d (n + 1) (by omega)
      exact ⟨r, by rw [crRun, if_pos rfl]; exact hr⟩
    · obtain ⟨r, hr⟩ := emitRun_cons c hn
      exact ⟨r ++ crRun d 1 t, by rw [crRun, if_neg hd, hr]; rfl⟩

theorem noTriple_cons_of_runs {c d : Char} {xs ys : PyStr}
    (hxs : ∀ x ∈ xs, x = c) (hys : ∃ r, ys = d :: r) (hne : d ≠ c)
    (h1 : NoTriple xs) (h2 : NoTriple ys) : NoTriple (xs ++ ys) := by
  induction xs with
  | nil => exact h2
  | cons x xs ih =>
    have hx : x = c := hxs x (List.mem_cons_self x xs)
    rw [List.cons_append, noTriple_cons_iff]
    constructor
    · rintro p q rt heq hpq
      cases xs with
      | nil =>
        obtain ⟨r, rfl⟩ := hys
        simp only [List.nil_append] at heq
        injection heq with e1 e2
        exact hne ((e1.trans hpq.1.symm).trans hx)
      | cons u xs' =>
        have hu : u = c := hxs u (List.mem_cons_of_mem _ (List.mem_cons_self u xs'))
        cases xs' with
        | nil =>
          obtain ⟨r, rfl⟩ := hys
          simp only [List.cons_append, List.nil_append] at heq
          injection heq with e1 e2
          injection e2 with e2 e3
          exact hne (((e2.trans hpq.2.1.symm).trans e1.symm).trans hu)
        | cons v xs'' =>
          have hv : v = c :=
            hxs v (List.mem_cons_of_mem _ (List.mem_cons_of_mem _ (List.mem_cons_self v xs'')))
          simp only [List.cons_append] at heq
          injection heq with e1 e2
          injection e2 with e2 e3
          exact (noTriple_cons_iff.1 h1).1 u v xs'' rfl
            ⟨hpq.1.trans e1.symm, (e1.trans hpq.2.1).trans e2.symm, hpq.2.2⟩
    · exact ih (fun y hy => hxs y (List.mem_cons_of_mem _ hy)) h1.tailNT

theorem noTriple_crRun (t : PyStr) : ∀ c : Char, ∀ n : ℕ, NoTriple (crRun c n t) := by
  induction t with
  | nil => intro c n; rw [crRun]; exact noTriple_emitRun c n
  | cons d t ih =>
    intro c n
    rw [crRun]
    split
    · exact ih c (n + 1)
    · rename_i hd
      exact noTriple_cons_of_runs (fun x hx => mem_emitRun hx)
        (crRun_cons t d 1 le_rfl) hd (noTriple_emitRun c n) (ih d 1)

theorem noTriple_collapseRepeats (s : PyStr) : NoTriple (collapseRepeats s) := by
  cases s with
  | nil => trivial
  | cons a t => exact noTriple_crRun t a 1

theorem replicate_append_cons (n : ℕ) (c : Char) (t : PyStr) :
    List.replicate n c ++ c :: t = List.replicate (n + 1) c ++ t := by
  rw [List.replicate_succ', List.append_assoc]
  rfl

theorem crRun_eq_self (t : PyStr) : ∀ c : Char, ∀ n : ℕ,
    NoTriple (List.replicate n c ++ t) → crRun c n t = List.replicate n c ++ t := by
  induction t with
  | nil =>
    intro c n h
    rw [crRun, List.append_nil] at *
    unfold emitRun
    rw [if_neg]
    rintro ⟨h3, hc⟩
    exact not_noTriple_replicate h3 hc (by simpa using h)
  | cons d t ih =>
    intro c n h
    rw [crRun]
    split
    · rename_i hd
      subst hd
      rw [replicate_append_cons] at h ⊢
      exact ih d (n + 1) h
    · rename_i hd
      have h1 : NoTriple (List.replicate n c) := noTriple_append_left h
      have h2 : NoTriple (d :: t) := noTriple_append_right h
      have he : emitRun c n = List.replicate n c := by
        unfold emitRun
        rw [if_neg]
        rintro ⟨h3, hc⟩
        exact not_noTriple_replicate h3 hc h1
      rw [he, ih d 1 (by simpa using h2)]
      simp

theorem collapseRepeats_eq_self {s : PyStr} (h : NoTriple s) : collapseRepeats s = s := by
  cases s with
  | nil => rfl
  | cons a t =>
    rw [collapseRepeats, crRun_eq_self t a 1 (by simpa using h)]
    simp

theorem isWordPy_ne_nl {c : Char} (h : isWordPy c = true) : c ≠ '\n' := by
  rintro rfl
  exact absurd h (by decide)

theorem wcRun_eq_self (t : PyStr) : ∀ pw : Bool, ∀ c : Char, ∀ n : ℕ,
    NoTriple (List.replicate n c ++ t) → wcRun pw c n t = List.replicate n c ++ t := by
  induction t with
  | nil =>
    intro pw c n h
    rw [wcRun, List.append_nil] at *
    unfold emitWordRun
    rw [if_neg]
    intro hcond
    simp only [Bool.and_eq_true, decide_eq_true_eq] at hcond
    obtain ⟨⟨⟨hw, hpw⟩, h4⟩, hb⟩ := hcond
    exact @not_noTriple_replicate c n (by omega) (isWordPy_ne_nl hw) (by simpa using h)
  | cons d t ih =>
    intro pw c n h
    rw [wcRun]
    split
    · rename_i hd
      subst hd
      rw [replicate_append_cons] at h ⊢
      exact ih pw d (n + 1) h
    · rename_i hd
      have h1 : NoTriple (List.replicate n c) := noTriple_append_left h
      have h2 : NoTriple (d :: t) := noTriple_append_right h
      have he : emitWordRun pw c n (!isWordPy d) = List.replicate n c := by
        unfold emitWordRun
        rw [if_neg]
        intro hcond
        simp only [Bool.and_eq_true, decide_eq_true_eq] at hcond
        obtain ⟨⟨⟨hw, hpw⟩, h4⟩, hb⟩ := hcond
        exact @not_noTriple_replicate c n (by omega) (isWordPy_ne_nl hw) h1
      rw [he, ih (isWordPy c) d 1 (by simpa using h2)]
      simp

theorem collapseWordRuns_eq_self {s : PyStr} (h : NoTriple s) : collapseWordRuns s = s := by
  cases s with
  | nil => rfl
  | cons a t =>
    rw [collapseWordRuns, wcRun_eq_self t false a 1 (by simpa using h)]
    simp

theorem head?_collapseSpaces : ∀ l : PyStr, (collapseSpaces l).head? = l.head? := by
  intro l
  induction l with
  | nil => rfl
  | cons a t ih =>
    cases t with
    | nil => rfl
    | cons b t' =>
      rw [show collapseSpaces (a :: b :: t') =
          if a = ' ' ∧ b = ' ' then collapseSpaces (b :: t')
          else a :: collapseSpaces (b :: t') from rfl]
      split
      · rename_i hab
        rw [ih]
        simp only [List.head?_cons, hab.1, hab.2]
      · rfl

theorem noDbSpace_collapseSpaces : ∀ l : PyStr, NoDbSpace (collapseSpaces l) := by
  intro l
  induction l with
  | nil => trivial
  | cons a t ih =>
    cases t with
    | nil => trivial
    | cons b t' =>
      rw [show collapseSpaces (a :: b :: t') =
          if a = ' ' ∧ b = ' ' then collapseSpaces (b :: t')
          else a :: collapseSpaces (b :: t') from rfl]
      split
      · exact ih
      · rename_i hab
        rw [noDbSpace_cons_iff]
        refine ⟨?_, ih⟩
        rintro x rt heq hx
        have hb : x = b := by
          have := head?_collapseSpaces (b :: t')
          rw [heq] at this
          simpa using this
        exact hab ⟨hx.1, hb ▸ hx.2⟩

theorem collapseSpaces_eq_self : ∀ {l : PyStr}, NoDbSpace l → collapseSpaces l = l := by
  intro l
  induction l with
  | nil => intro _; rfl
  | cons a t ih =>
    intro h
    cases t with
    | nil => rfl
    | cons b t' =>
      simp only [NoDbSpace] at h
      rw [show collapseSpaces (a :: b :: t') =
          if a = ' ' ∧ b = ' ' then collapseSpaces (b :: t')
          else a :: collapseSpaces (b :: t') from rfl]
      rw [if_neg h.1, ih h.2]

theorem noTriple_collapseSpaces : ∀ {l : PyStr}, NoTriple l → NoTriple (collapseSpaces l) := by
  intro l
  induction l with
  | nil => intro _; trivial
  | cons a t ih =>
    intro h
    cases t with
    | nil => trivial
    | cons b t' =>
      rw [show collapseSpaces (a :: b :: t') =
          if a = ' ' ∧ b = ' ' then collapseSpaces (b :: t')
          else a :: collapseSpaces (b :: t') from rfl]
      split
      · exact ih h.tailNT
      · rename_i hab
        rw [noTriple_cons_iff]
        refine ⟨?_, ih h.tailNT⟩
        rintro x y rt heq hpq
        have hb : x = b := by
          have := head?_collapseSpaces (b :: t')
          rw [heq] at this
          simpa using this
        cases t' with
        | nil =>
          rw [show collapseSpaces [b] = [b] from rfl] at heq
          injection heq with e1 e2
          exact List.cons_ne_nil y rt e2.symm
        | cons c t'' =>
          rw [show collapseSpaces (b :: c :: t'') =
              if b = ' ' ∧ c = ' ' then collapseSpaces (c :: t'')
              else b :: collapseSpaces (c :: t'') from rfl] at heq
          by_cases hbc : b = ' ' ∧ c = ' '
          · rw [if_pos hbc] at heq
            have hx : x = c := by
              have := head?_collapseSpaces (c :: t'')
              rw [heq] at this
              simpa using this
            exact hab ⟨(hpq.1.trans hx).trans hbc.2, hbc.1⟩
          · rw [if_neg hbc] at heq
            injection heq with e1 e2
            have hy : y = c := by
              have := head?_collapseSpaces (c :: t'')
              rw [e2] at this
              simpa using this
            simp only [NoTriple] at h
            exact h.1 ⟨hpq.1.trans hb, (hb.symm.trans hpq.2.1).trans hy, hpq.2.2⟩

theorem splitLines_ne_nil : ∀ s : PyStr, splitLines s ≠ [] := by
  intro s
  induction s with
  | nil => simp [splitLines]
  | cons a t ih =>
    rcases hsp : splitLines t with _ | ⟨h, rt⟩
    · exact absurd hsp ih
    · have hred : splitLines (a :: t) =
          if a = '\n' then [] :: h :: rt else (a :: h) :: rt := by
        rw [splitLines, hsp]
      rw [hred]
      split <;> simp

theorem splitLines_head_prefix :
    ∀ s : PyStr, ∀ h rt, splitLines s = h :: rt → h <+: s := by
  intro s
  induction s with
  | nil =>
    intro h rt heq
    rw [splitLines] at heq
    injection heq with e1 e2
    exact e1 ▸ List.nil_prefix
  | cons a t ih =>
    intro h rt heq
    rcases hsp : splitLines t with _ | ⟨h', rt'⟩
    · exact absurd hsp (splitLines_ne_nil t)
    · have hred : splitLines (a :: t) =
          if a = '\n' then [] :: h' :: rt' else (a :: h') :: rt' := by
        rw [splitLines, hsp]
      rw [hred] at heq
      split at heq
      · injection heq with e1 e2
        exact e1 ▸ List.nil_prefix
      · injection heq with e1 e2
        exact e1 ▸ (List.cons_prefix_cons.2 ⟨rfl, ih h' rt' hsp⟩)

theorem mem_splitLines_noTriple :
    ∀ {s : PyStr}, NoTriple s → ∀ l ∈ splitLines s, NoTriple l := by
  intro s
  induction s with
  | nil =>
    intro _ l hl
    rw [splitLines] at hl
    simp at hl
    subst hl; trivial
  | cons a t ih =>
    intro h l hl
    rcases hsp : splitLines t with _ | ⟨h', rt'⟩
    · exact absurd hsp (splitLines_ne_nil t)
    · have hred : splitLines (a :: t) =
          if a = '\n' then [] :: h' :: rt' else (a :: h') :: rt' := by
        rw [splitLines, hsp]
      rw [hred] at hl
      split at hl
      · rcases List.mem_cons.1 hl with rfl | hl'
        · trivial
        · exact ih h.tailNT l (hsp ▸ hl')
      · rcases List.mem_cons.1 hl with rfl | hl'
        · have hpre : h' <+: t := splitLines_head_prefix t h' rt' hsp
          exact noTriple_prefix (List.cons_prefix_cons.2 ⟨rfl, hpre⟩) h
        · exact ih h.tailNT l (hsp ▸ List.mem_cons_of_mem h' hl')

theorem mem_splitLines_noDbSpace :
    ∀ {s : PyStr}, NoDbSpace s → ∀ l ∈ splitLines s, NoDbSpace l := by
  intro s
  induction s with
  | nil =>
    intro _ l hl
    rw [splitLines] at hl
    simp at hl
    subst hl; trivial
  | cons a t ih =>
    intro h l hl
    rcases hsp : splitLines t with _ | ⟨h', rt'⟩
    · exact absurd hsp (splitLines_ne_nil t)
    · have hred : splitLines (a :: t) =
          if a = '\n' then [] :: h' :: rt' else (a :: h') :: rt' := by
        rw [splitLines, hsp]
      rw [hred] at hl
      split at hl
      · rcases List.mem_cons.1 hl with rfl | hl'
        · trivial
        · exact ih h.tailND l (hsp ▸ hl')
      · rcases List.mem_cons.1 hl with rfl | hl'
        · have hpre : h' <+: t := splitLines_head_prefix t h' rt' hsp
          exact noDbSpace_prefix (List.cons_prefix_cons.2 ⟨rfl, hpre⟩) h
        · exact ih h.tailND l (hsp ▸ List.mem_cons_of_mem h' hl')

theorem joinWithChar_cons_cons (sep a : Char) (h : PyStr) (rt : List PyStr) :
    joinWithChar sep ((a :: h) :: rt) = a :: joinWithChar sep (h :: rt) := by
  cases rt <;> rfl

theorem joinWithChar_splitLines : ∀ s : PyStr, joinWithChar '\n' (splitLines s) = s := by
  intro s
  induction s with
  | nil => rfl
  | cons a t ih =>
    rcases hsp : splitLines t with _ | ⟨h, rt⟩
    · exact absurd hsp (splitLines_ne_nil t)
    · have hred : splitLines (a :: t) =
          if a = '\n' then [] :: h :: rt else (a :: h) :: rt := by
        rw [splitLines, hsp]
      rw [hsp] at ih
      rw [hred]
      split
      · rename_i ha
        subst ha
        rw [show joinWithChar '\n' ([] :: h :: rt) =
            '\n' :: joinWithChar '\n' (h :: rt) from rfl, ih]
      · rw [joinWithChar_cons_cons, ih]

theorem noTriple_append_nl : ∀ {xs ys : PyStr},
    NoTriple xs → NoTriple ys → NoTriple (xs ++ '\n' :: ys) := by
  intro xs
  induction xs with
  | nil =>
    intro ys _ h2
    rw [List.nil_append, noTriple_cons_iff]
    exact ⟨fun x y rt heq hpq => hpq.2.2 rfl, h2⟩
  | cons x xs ih =>
    intro ys h1 h2
    rw [List.cons_append, noTriple_cons_iff]
    refine ⟨?_, ih h1.tailNT h2⟩
    rintro p q rt heq hpq
    cases xs with
    | nil =>
      simp only [List.nil_append] at heq
      injection heq with e1 e2
      exact hpq.2.2 (hpq.1.trans e1.symm)
    | cons u xs' =>
      cases xs' with
      | nil =>
        simp only [List.cons_append, List.nil_append] at heq
        injection heq with e1 e2
        injection e2 with e2 e3
        exact hpq.2.2 ((hpq.1.trans e1.symm).trans ((e1.trans hpq.2.1).trans e2.symm))
      | cons v xs'' =>
        simp only [List.cons_append] at heq
        injection heq with e1 e2
        injection e2 with e2 e3
        exact (noTriple_cons_iff.1 h1).1 u v xs'' rfl
          ⟨hpq.1.trans e1.symm, (e1.trans hpq.2.1).trans e2.symm, hpq.2.2⟩

theorem noDbSpace_append_nl : ∀ {xs ys : PyStr},
    NoDbSpace xs → NoDbSpace ys → NoDbSpace (xs ++ '\n' :: ys) := by
  intro xs
  induction xs with
  | nil =>
    intro ys _ h2
    rw [List.nil_append, noDbSpace_cons_iff]
    exact ⟨fun x rt heq hpq => by exact absurd hpq.1 (by decide), h2⟩
  | cons x xs ih =>
    intro ys h1 h2
    rw [List.cons_append, noDbSpace_cons_iff]
    refine ⟨?_, ih h1.tailND h2⟩
    rintro p rt heq hpq
    cases xs with
    | nil =>
      simp only [List.nil_append] at heq
      injection heq with e1 e2
      exact absurd (e1 ▸ hpq.2 : '\n' = ' ') (by decide)
    | cons u xs' =>
      injection heq with e1 e2
      exact (noDbSpace_cons_iff.1 h1).1 u xs' rfl ⟨hpq.1, e1 ▸ hpq.2⟩

theorem noTriple_joinNl : ∀ {ls : List PyStr},
    (∀ l ∈ ls, NoTriple l) → NoTriple (joinWithChar '\n' ls) := by
  intro ls
  induction ls with
  | nil => intro _; trivial
  | cons l ls ih =>
    intro h
    cases ls with
    | nil => exact h l (List.mem_cons_self l [])
    | cons l₂ ls' =>
      rw [show joinWithChar '\n' (l :: l₂ :: ls') =
          l ++ '\n' :: joinWithChar '\n' (l₂ :: ls') from rfl]
      exact noTriple_append_nl (h l (List.mem_cons_self l _))
        (ih fun x hx => h x (List.mem_cons_of_mem l hx))

theorem noDbSpace_joinNl : ∀ {ls : List PyStr},
    (∀ l ∈ ls, NoDbSpace l) → NoDbSpace (joinWithChar '\n' ls) := by
  intro ls
  induction ls with
  | nil => intro _; trivial
  | cons l ls ih =>
    intro h
    cases ls with
    | nil => exact h l (List.mem_cons_self l [])
    | cons l₂ ls' =>
      rw [show joinWithChar '\n' (l :: l₂ :: ls') =
          l ++ '\n' :: joinWithChar '\n' (l₂ :: ls') from rfl]
      exact noDbSpace_append_nl (h l (List.mem_cons_self l _))
        (ih fun x hx => h x (List.mem_cons_of_mem l hx))

theorem noTriple_normalize_text (t : PyStr) : NoTriple (normalize_text t) := by
  rw [normalize_text]
  split
  · trivial
  · have hv : collapseWordRuns (collapseRepeats t) = collapseRepeats t :=
      collapseWordRuns_eq_self (noTriple_collapseRepeats t)
    apply noTriple_joinNl
    intro l hl
    obtain ⟨l₀, hl₀, rfl⟩ := List.mem_map.1 hl
    have hnv : NoTriple (collapseWordRuns (collapseRepeats t)) := by
      rw [hv]; exact noTriple_collapseRepeats t
    exact noTriple_collapseSpaces (mem_splitLines_noTriple hnv l₀ hl₀)

theorem noDbSpace_normalize_text (t : PyStr) : NoDbSpace (normalize_text t) := by
  rw [normalize_text]
  split
  · trivial
  · apply noDbSpace_joinNl
    intro l hl
    obtain ⟨l₀, _, rfl⟩ := List.mem_map.1 hl
    exact noDbSpace_collapseSpaces l₀

theorem normalize_text_eq_self {u : PyStr} (h1 : NoTriple u) (h2 : NoDbSpace u) :
    normalize_text u = u := by
  rw [normalize_text]
  split
  · rename_i h; exact h.symm
  · rw [collapseRepeats_eq_self h1, collapseWordRuns_eq_self h1]
    have hmap : ∀ L : List PyStr, (∀ l ∈ L, NoDbSpace l) → L.map collapseSpaces = L := by
      intro L
      induction L with
      | nil => intro _; rfl
      | cons x xs ih =>
        intro h
        simp only [List.map_cons]
        rw [collapseSpaces_eq_self (h x (List.mem_cons_self x xs)),
          ih (fun y hy => h y (List.mem_cons_of_mem x hy))]
    rw [hmap (splitLines u) (mem_splitLines_noDbSpace h2), joinWithChar_splitLines]

/-! ## Data model

A text span as produced by `_extract_page_spans` (source lines 263–308).
The Python object is a dict; the keys stored there are the record's plain
fields.  The pipeline also calls `span.get("x0", 0)`, `span.get("y0", 0)` and
`span.get("size", 12)`, keys that page extraction never stores; they are
modeled as `Option` fields (always `none` for extracted spans) read through
the `dict.get` default. -/

structure Span where
  text : PyStr
  original_text : PyStr
  font_size : ℚ
  font : PyStr
  flags : ℕ
  x : ℚ
  y : ℚ
  width : ℚ
  height : ℚ
  page : ℤ
  x0 : Option ℚ := none
  y0 : Option ℚ := none
  size : Option ℚ := none
  deriving DecidableEq, Repr, Inhabited

/-- `span.get("x0", 0)`. -/
def getX0 (s : Span) : ℚ := s.x0.getD 0

/-- `span.get("y0", 0)`. -/
def getY0 (s : Span) : ℚ := s.y0.getD 0

/-- `span.get("size", span.get("font_size", 12))` from `_is_likely_heading`. -/
def getSizeOrFont (s : Span) : ℚ := s.size.getD s.font_size

/-- A heading candidate dict as built by `_assign_hierarchy_by_position`
(source lines 885–894; the `span` back-reference is dropped — no later
consumer reads it). -/
structure Cand where
  level : PyStr
  text : PyStr
  page : ℤ
  x0 : ℚ
  y0 : ℚ
  size : ℚ
  flags : ℕ
  deriving DecidableEq, Repr

/-- A final heading record `{level, text, page}`. -/
structure Heading where
  level : PyStr
  text : PyStr
  page : ℤ
  deriving DecidableEq, Repr, Inhabited

/-- The result of `extract_outline`. -/
structure ExtractResult where
  title : PyStr
  outline : List Heading
  deriving DecidableEq, Repr

/-! ## Hand-translated regular expressions

Each `re.match`/`re.sub` of the live pipeline becomes a scanner on character
lists.  Whitespace/word/digit classes are the ASCII fragments above. -/

/-- Python `str.isdigit()` (ASCII): nonempty, all digits. -/
def isDigitStr (s : PyStr) : Bool := !s.isEmpty && s.all isDigitPy

/-- Python `str.islower()` (ASCII fragment): has a cased character and every
cased character is lowercase. -/
def islowerPy (s : PyStr) : Bool :=
  s.any isCasedPy && s.all (fun c => !isCasedPy c || isLowerCasedPy c)

/-- `re.match(r'^s\.?\s*no\.?$', t)` (text already lowercased). -/
def matchSNo (t : PyStr) : Bool :=
  match t with
  | 's' :: r =>
      let r1 := match r with | '.' :: r' => r' | _ => r
      (match r1.dropWhile isSpacePy with
       | 'n' :: 'o' :: r3 => r3 = [] || r3 = ['.']
       | _ => false : Bool)
  | _ => false

/-- `re.match(r'^\d+\.?$', t)`. -/
def matchPureNum (t : PyStr) : Bool :=
  let ds := t.takeWhile isDigitPy
  let r := t.dropWhile isDigitPy
  !ds.isEmpty && (r = [] || r = ['.'])

/-- `re.match(r'^[a-z]\)$', t)`. -/
def matchLetterParen (t : PyStr) : Bool :=
  match t with
  | [c, ')'] => isLowerCasedPy c
  | _ => false

/-- `re.match(r'^\([a-z]\)$', t)`. -/
def matchParenLetter (t : PyStr) : Bool :=
  match t with
  | ['(', c, ')'] => isLowerCasedPy c
  | _ => false

/-- `re.match(r'^rs\.?\s*\d*$', t)`. -/
def matchRs (t : PyStr) : Bool :=
  match t with
  | 'r' :: 's' :: r =>
      let r1 := match r with | '.' :: r' => r' | _ => r
      (r1.dropWhile isSpacePy).all isDigitPy
  | _ => false

/-- `re.match(r'^\$\s*\d*$', t)`. -/
def matchDollar (t : PyStr) : Bool :=
  match t with
  | '$' :: r => (r.dropWhile isSpacePy).all isDigitPy
  | _ => false

/-- `re.match(r'^date\s*:', t)` (prefix match). -/
def matchDateColon (t : PyStr) : Bool :=
  match t with
  | 'd' :: 'a' :: 't' :: 'e' :: r =>
      (match r.dropWhile isSpacePy with | ':' :: _ => true | _ => false : Bool)
  | _ => false

/-- `re.match(r'^time\s*:', t)` (prefix match). -/
def matchTimeColon (t : PyStr) : Bool :=
  match t with
  | 't' :: 'i' :: 'm' :: 'e' :: r =>
      (match r.dropWhile isSpacePy with | ':' :: _ => true | _ => false : Bool)
  | _ => false

/-- `re.match(r'^\d+\.\s+', t)`: digits, a period, then whitespace. -/
def matchNumDotWs (t : PyStr) : Bool :=
  let ds := t.takeWhile isDigitPy
  !ds.isEmpty &&
    (match t.dropWhile isDigitPy with
     | '.' :: c :: _ => isSpacePy c
     | _ => false : Bool)

/-- `re.match(r'^\d+\.\d+\s+', t)`: `N.N` then whitespace. -/
def matchSubsectionWs (t : PyStr) : Bool :=
  let r1 := t.dropWhile isDigitPy
  !(t.takeWhile isDigitPy).isEmpty &&
    (match r1 with
     | '.' :: r2 =>
         let r3 := r2.dropWhile isDigitPy
         !(r2.takeWhile isDigitPy).isEmpty &&
           (match r3 with | c :: _ => isSpacePy c | [] => false : Bool)
     | _ => false : Bool)

/-- Month alternatives of the version-history pattern. -/
def monthNames : List PyStr :=
  ["jan", "feb", "mar", "apr", "may", "jun", "jul", "aug", "sep", "oct", "nov",
    "dec"].map String.data

/-- `re.match(r'^\d+\.\d+\s+\d+\s+(jan|feb|mar|apr|may|jun|jul|aug|sep|oct|nov|dec)', t)`
on lowercased text (prefix match). -/
def matchVersionHist (t : PyStr) : Bool :=
  !(t.takeWhile isDigitPy).isEmpty &&
    (match t.dropWhile isDigitPy with
     | '.' :: r2 =>
         let r3 := r2.dropWhile isDigitPy
         let s1 := r3.takeWhile isSpacePy
         let r4 := r3.dropWhile isSpacePy
         let d3 := r4.takeWhile isDigitPy
         let r5 := r4.dropWhile isDigitPy
         let s2 := r5.takeWhile isSpacePy
         let r6 := r5.dropWhile isSpacePy
         !(r2.takeWhile isDigitPy).isEmpty && !s1.isEmpty && !d3.isEmpty &&
           !s2.isEmpty && monthNames.any (fun m => startsWithPy m r6)
     | _ => false : Bool)

/-- `re.match(r'^\w+\s+\d+,\s+\d{4}', t)` (prefix match): a date like
`March 21, 2003`. -/
def matchDateLike (t : PyStr) : Bool :=
  let w := t.takeWhile isWordPy
  let r1 := t.dropWhile isWordPy
  let s1 := r1.takeWhile isSpacePy
  let r2 := r1.dropWhile isSpacePy
  let d1 := r2.takeWhile isDigitPy
  let r3 := r2.dropWhile isDigitPy
  !w.isEmpty && !s1.isEmpty && !d1.isEmpty &&
    (match r3 with
     | ',' :: r4 =>
         let s2 := r4.takeWhile isSpacePy
         let r5 := r4.dropWhile isSpacePy
         !s2.isEmpty && decide ((r5.takeWhile isDigitPy).length ≥ 4)
     | _ => false : Bool)

/-- `re.match(r'^appendix [abc]:', t)` on lowercased text. -/
def matchAppendixLower (t : PyStr) : Bool :=
  startsWithPy "appendix a:".data t || startsWithPy "appendix b:".data t ||
    startsWithPy "appendix c:".data t

/-- `re.match(r'^phase [ivx]+', t)` on lowercased text. -/
def matchPhaseRoman (t : PyStr) : Bool :=
  match t with
  | 'p' :: 'h' :: 'a' :: 's' :: 'e' :: ' ' :: c :: _ =>
      c == 'i' || c == 'v' || c == 'x'
  | _ => false

/-- `re.match(r'^3\.\s+', t)`. -/
def matchThreeDotWs (t : PyStr) : Bool :=
  match t with
  | '3' :: '.' :: c :: _ => isSpacePy c
  | _ => false

/-- In reversed input, `$` may match just before one final newline. -/
def dropLastNl (r : PyStr) : PyStr :=
  match r with | '\n' :: r' => r' | _ => r

/-- `re.match(r'.+\s\.\s\d+$', t)`: a dotted table-of-contents leader such as
`Revision History . 3`.  Matched from the reversed string: digits, one
whitespace, a period, one whitespace, then a nonempty newline-free body. -/
def matchTocDotted (t : PyStr) : Bool :=
  let r := dropLastNl t.reverse
  let r1 := r.dropWhile isDigitPy
  !(r.takeWhile isDigitPy).isEmpty &&
    (match r1 with
     | s2 :: '.' :: s1 :: a =>
         isSpacePy s2 && isSpacePy s1 && !a.isEmpty && a.all (fun c => c != '\n')
     | _ => false : Bool)

/-- `re.match(r'.+\.\s\d+$', t)`: leader such as `2.5 Structure and Course
Duration. 8`. -/
def matchTocDotNum (t : PyStr) : Bool :=
  let r := dropLastNl t.reverse
  let r1 := r.dropWhile isDigitPy
  !(r.takeWhile isDigitPy).isEmpty &&
    (match r1 with
     | s :: '.' :: a =>
         isSpacePy s && !a.isEmpty && a.all (fun c => c != '\n')
     | _ => false : Bool)

/-! ## Keyword tables (transcribed literally from the source) -/

/-- `_is_form_field`'s `form_indicators` (source lines 491–498). -/
def formIndicators : List PyStr :=
  ["name", "designation", "date", "service", "pay", "whether", "home town",
    "employed", "signature", "place", "stamp", "office", "department",
    "employee", "id", "number", "s.no", "serial", "amount", "rupees",
    "advance", "purpose", "from", "to", "duration", "period", "remarks",
    "recommendation", "approved", "sanctioned", "certified",
    "checked"].map String.data

/-- Decorative words excluded from form-field matching (source line 509). -/
def decoWords : List PyStr :=
  ["hope", "see", "you", "there", "welcome", "party", "event"].map String.data

/-- Title patterns excluded from form-field matching (source line 510). -/
def titleFormPatterns : List PyStr :=
  ["application form", "request form", "form for"].map String.data

/-- `_looks_like_title`'s `title_words` (source lines 548–549). -/
def titleWords : List PyStr :=
  ["application", "form", "report", "guide", "manual", "overview",
    "introduction", "plan", "proposal", "request"].map String.data

/-- `_should_skip_span`'s `target_headings` (source line 1177). -/
def targetHeadings : List PyStr :=
  ["revision history", "table of contents", "acknowledgements", "references",
    "pathway options"].map String.data

/-- `_should_skip_span`'s `critical_file03_headings` (source line 1182). -/
def criticalSkipHeadings : List PyStr :=
  ["guidance and advice", "milestones", "phase iii"].map String.data

/-- Header/footer phrases skipped by `_should_skip_span` (source lines 1187–1191). -/
def headerFooterPhrases : List PyStr :=
  ["overview", "software testing", "qualifications board",
    "foundation level extension", "copyright", "©", "international",
    "version 1.0", "agile tester"].map String.data

/-- `_is_likely_heading`'s `critical_file03_headings` (source lines 903–907). -/
def criticalFile03 : List PyStr :=
  ["guidance and advice:", "milestones",
    "phase iii: operating and growing"].map String.data

/-- Table/administrative phrases skipped in `_is_likely_heading` (source lines 929–932). -/
def rfpSkipPhrases : List PyStr :=
  ["result:", "funding source", "investment of", "proposals will be evaluated",
    "planning process must also"].map String.data

/-- `rfp_h1_keywords` (source lines 938–941). -/
def rfpH1Keywords : List PyStr :=
  ["ontario", "digital library", "critical component", "road map",
    "prosperity", "implementing"].map String.data

/-- `rfp_h2_keywords` (source lines 950–957). -/
def rfpH2Keywords : List PyStr :=
  ["summary", "background", "methodology", "deliverables", "timeline",
    "budget", "evaluation", "conclusion", "business plan", "approach",
    "awarding", "contract", "appendix a:", "appendix b:", "appendix c:",
    "steering committee", "terms of reference", "electronic resources",
    "envisioned phases", "funding"].map String.data

/-- `rfp_h3_keywords` (source lines 970–979). -/
def rfpH3Keywords : List PyStr :=
  ["timeline", "access", "governance", "funding", "decision-making",
    "accountability", "structure", "equitable", "shared", "local", "guidance",
    "advice", "training", "purchasing", "licensing", "technological",
    "support", "milestones", "business planning", "implementing",
    "transitioning", "operating", "growing", "preamble", "membership",
    "appointment", "criteria", "process", "term", "chair", "meetings",
    "lines", "communication", "financial", "administrative", "policies",
    "phase", "what could", "really mean"].map String.data

/-- `critical_h3_patterns` (source lines 982–985). -/
def criticalH3 : List PyStr :=
  ["guidance and advice", "milestones"].map String.data

/-- H4 qualifier words (source line 1020). -/
def forEachWords : List PyStr :=
  ["citizen", "student", "library", "government"].map String.data

/-- Keywords of main numbered sections (source lines 1027–1029). -/
def h1NumKeywords : List PyStr :=
  ["introduction", "overview", "references"].map String.data

/-- `subsection_keywords` (source lines 1036–1040). -/
def subsectionKeywords : List PyStr :=
  ["intended audience", "career paths", "learning objectives",
    "entry requirements", "structure and course", "keeping it current",
    "business outcomes", "content", "trademarks",
    "documents and web sites"].map String.data

/-- `structural_keywords` (source lines 1046–1049). -/
def structuralKeywords : List PyStr :=
  ["revision history", "table of contents", "acknowledgements", "references",
    "pathway options"].map String.data

/-- Column-header words (source line 1058). -/
def pathwayWords : List PyStr :=
  ["pathway", "regular", "distinction"].map String.data

/-- Obvious paragraph-text phrases (source lines 1072–1076). -/
def paragraphPhrases : List PyStr :=
  ["this overview document", "outcomes are stated",
    "the following registered", "working group", "professionals who",
    "the tester should", "syllabus  days", "baseline:", "extension:",
    "foundation level.", "the odl will", "request for proposal"].map String.data

/-- `_detect_document_type`'s RFP phrases (source lines 1676–1680). -/
def rfpPhrases : List PyStr :=
  ["rfp:", "request for proposal", "proposal for developing", "business plan",
    "ontario digital library", "steering committee", "timeline:",
    "background", "summary"].map String.data

/-- Strong form indicators (source lines 1684–1688). -/
def strongFormPhrases : List PyStr :=
  ["application form for", "employee code", "employee name:", "ltc advance",
    "grant of advance", "signature of employee", "forwarded for approval",
    "office seal"].map String.data

/-- General form words (source line 1692). -/
def generalFormWords : List PyStr :=
  ["application", "form", "name:", "date:", "signature"].map String.data

/-- Structured-document words (source lines 1697–1701). -/
def structuredWords : List PyStr :=
  ["chapter", "section", "introduction", "overview", "table of contents",
    "acknowledgements", "foundation level", "revision history",
    "copyright notice"].map String.data

/-- Manual/book words (source line 1705). -/
def manualWords : List PyStr :=
  ["foundation", "extensions", "level"].map String.data

/-- Invitation phrases (source lines 1709–1711). -/
def invitationPhrases : List PyStr :=
  ["hope to see", "rsvp", "party", "invitation", "topjump"].map String.data

/-- `_adjust_page_numbers`'s `content_indicators` (source lines 219–223). -/
def contentIndicators : List PyStr :=
  ["revision history", "table of contents", "acknowledgements", "summary",
    "background", "introduction", "overview", "pathway options"].map String.data

/-- Exact first-pass content headings (source line 230). -/
def exactContentHeadings : List PyStr :=
  ["revision history", "table of contents", "acknowledgements", "summary",
    "background"].map String.data

/-- `problematic_timelines` (source lines 799–804). -/
def problematicTimelines : List PyStr :=
  ["Timeline: March 2003 – September 2003",
    "Timeline: April 2004 – December 2006",
    "Timeline: January 2007 -",
    "Phase I: Operating and Growing the ODL"].map String.data

/-! ## Predicate helpers of the live pipeline -/

/-- Embedding of `_is_form_field` (source lines 479–529). -/
def _is_form_field (text0 : PyStr) : Bool :=
  let text := lowerPy (stripPy text0)
  if decide (text.length ≤ 3) && isDigitStr text then true
  else if decide (text.length ≤ 5) && (endsWithPy ".".data text || isDigitStr text) then
    true
  else if formIndicators.any (fun i => text == i) then true
  else if formIndicators.any (fun i => containsSub i text) && decide (text.length ≤ 30)
      && !(decoWords.any (fun d => containsSub d text))
      && !(titleFormPatterns.any (fun p => containsSub p text)) then true
  else
    matchSNo text || matchPureNum text || matchLetterParen text ||
      matchParenLetter text || matchRs text || matchDollar text ||
      matchDateColon text || matchTimeColon text

/-- Embedding of `_looks_like_title` (source lines 531–561). -/
def _looks_like_title (text0 : PyStr) : Bool :=
  let text := stripPy text0
  if decide (text.length < 5) || decide (text.length > 150) then false
  else if _is_form_field text then false
  else if decide (countCharPy '.' text > 2) || decide (countCharPy ',' text > 3) then
    false
  else if titleWords.any (fun w => containsSub w (lowerPy text)) then true
  else
    let words := splitWsPy text
    if decide (words.length ≥ 2) then
      let tc := (words.filter (fun w => !w.isEmpty && isUpperPy (w.headD ' '))).length
      -- `title_case_count / len(words) >= 0.5`
      qle (Rat.divInt 1 2) (Rat.divInt (tc : ℤ) (words.length : ℤ))
    else false

/-- Embedding of `_should_skip_span` (source lines 1172–1214). -/
def _should_skip_span (text : PyStr) : Bool :=
  let tl := lowerPy text
  if targetHeadings.any (fun t => containsSub t tl) then false
  else if criticalSkipHeadings.any (fun c => containsSub c tl) then false
  else if headerFooterPhrases.any (fun p => containsSub p tl)
      && decide ((splitWsPy text).length ≤ 6) then true
  else if decide (countCharPy '.' text > 20) then true
  else if matchTocDotted text then true
  else if matchTocDotNum text then true
  else if decide (text.length > 100) then true
  else if _is_form_field text then true
  else false

/-- Embedding of `_detect_document_type` (source lines 1654–1724).  The
`total_text` counter of the source is computed but never read and is left
out. -/
def _detect_document_type (spans : List Span) : PyStr :=
  let analysis_spans := if decide (spans.length > 100) then spans.take 100 else spans
  let all_text := lowerPy (joinSpace (analysis_spans.map (·.text)))
  let full_text := lowerPy (joinSpace (spans.map (·.text)))
  let step := fun (acc : ℕ × ℕ × ℕ × ℕ) (s : Span) =>
    match acc with
    | (rfp, form, structured, manual) =>
      let text := lowerPy (stripPy s.text)
      if decide (text.length < 3) then (rfp, form, structured, manual)
      else if rfpPhrases.any (fun p => containsSub p text) then
        (rfp + 3, form, structured, manual)
      else if strongFormPhrases.any (fun p => containsSub p text) then
        (rfp, form + 3, structured, manual)
      else if generalFormWords.any (fun w => containsSub w text)
          && !(containsSub "rfp".data all_text)
          && !(containsSub "proposal".data all_text) then
        (rfp, form + 1, structured, manual)
      else if structuredWords.any (fun w => containsSub w text) then
        (rfp, form, structured + 2, manual)
      else if manualWords.any (fun w => containsSub w text) then
        (rfp, form, structured, manual + 1)
      else (rfp, form, structured, manual)
  match analysis_spans.foldl step (0, 0, 0, 0) with
  | (rfp, form, structured, manual) =>
    if invitationPhrases.any (fun p => containsSub p full_text) then
      "invitation".data
    else if decide (rfp ≥ 3) then "rfp".data
    else if decide (form ≥ 3) && decide (form > structured) then "form".data
    else if decide (structured > form) && decide (structured > manual) then
      "structured".data
    else if decide (manual > 0) then "manual".data
    else "document".data

/-! ## Sort comparators (Python `sorted` key functions; `sortBy` is stable) -/

/-- Key `(s["page"], s["y"], s["x"])`. -/
def lePageYX (a b : Span) : Bool :=
  decide (a.page < b.page) || (a.page == b.page &&
    (qlt a.y b.y || (a.y == b.y && qle a.x b.x)))

/-- Key `(s["y"], s["x"])`. -/
def leYX (a b : Span) : Bool :=
  qlt a.y b.y || (a.y == b.y && qle a.x b.x)

/-- Key `s["x"]`. -/
def leX (a b : Span) : Bool := qle a.x b.x

/-- Key `s["font_size"]` with `reverse=True`. -/
def leSizeDesc (a b : Span) : Bool := qle b.font_size a.font_size

/-- Key `(x.get("page", 0), x.get("y0", 0), x.get("x0", 0))`. -/
def lePageY0X0 (a b : Span) : Bool :=
  decide (a.page < b.page) || (a.page == b.page &&
    (qlt (getY0 a) (getY0 b) || (getY0 a == getY0 b && qle (getX0 a) (getX0 b))))

/-- Key `x.get("x0", 0)`. -/
def leX0 (a b : Span) : Bool := qle (getX0 a) (getX0 b)

/-- Key `(s.get("page", 0), s.get("y0", 0))`. -/
def lePageY0 (a b : Span) : Bool :=
  decide (a.page < b.page) || (a.page == b.page && qle (getY0 a) (getY0 b))

/-- Key `(x['page'], x['y0'], x['x0'])` on candidates. -/
def leCand (a b : Cand) : Bool :=
  decide (a.page < b.page) || (a.page == b.page &&
    (qlt a.y0 b.y0 || (a.y0 == b.y0 && qle a.x0 b.x0)))

/-- Key `x["page"]` on headings. -/
def leHeadingPage (a b : Heading) : Bool := decide (a.page ≤ b.page)

/-- Key `len(x['text'].strip())` with `reverse=True`. -/
def leLenDesc (a b : Heading) : Bool :=
  decide ((stripPy b.text).length ≤ (stripPy a.text).length)

/-- `max(...)` over a nonempty list of integers (with a default for `[]`). -/
def maxIntD (l : List ℤ) (d : ℤ) : ℤ :=
  match l with
  | [] => d
  | x :: t => t.foldl max x

/-- `max(...)` over a nonempty list of rationals (with a default for `[]`). -/
def maxQD (l : List ℚ) (d : ℚ) : ℚ :=
  match l with
  | [] => d
  | x :: t => t.foldl qmax x

/-- `statistics.median` on rationals (callers guard nonemptiness). -/
def medianQ (l : List ℚ) : ℚ :=
  let s := sortBy qle l
  let n := s.length
  if n % 2 = 1 then s.getD (n / 2) 0
  else qdiv (qadd (s.getD (n / 2 - 1) 0) (s.getD (n / 2) 0)) 2

/-! ## Line grouping (source lines 563–648) -/

/-- Loop state of `_group_spans_by_line`: the current group (nonempty), its
reference `y` and page. -/
def group_lines_aux (cur : List Span) (cy : ℚ) (cp : ℤ) :
    List Span → List (List Span)
  | [] => [cur]
  | s :: rest =>
      if s.page == cp && qlt (qabs (qsub s.y cy)) 2 then
        group_lines_aux (cur ++ [s]) cy cp rest
      else cur :: group_lines_aux [s] s.y s.page rest

/-- Embedding of `_combine_spans_on_line` (source lines 610–648).  The source
returns `{}` for an empty input; that case is unreachable (groups are
nonempty) and maps to `default`. -/
def _combine_spans_on_line (group : List Span) : Span :=
  match group with
  | [] => default
  | [s] => s
  | g =>
    match sortBy leX g with
    | [] => default
    | s0 :: rest =>
        let r := rest.foldl (fun (acc : PyStr × ℚ) sp =>
          let gap := qsub sp.x acc.2
          let withSpace :=
            if qlt 1 gap && (qlt 8 gap || (qlt 3 gap && !(islowerPy sp.text)))
            then acc.1 ++ [' '] else acc.1
          (withSpace ++ sp.text, qadd sp.x sp.width)) (s0.text, qadd s0.x s0.width)
        { s0 with text := stripPy r.1, width := qsub r.2 s0.x }

/-- Embedding of `_group_spans_by_line` (source lines 563–608). -/
def _group_spans_by_line (spans : List Span) : List Span :=
  match sortBy lePageYX spans with
  | [] => []
  | s :: rest => (group_lines_aux [s] s.y s.page rest).map _combine_spans_on_line

/-! ## Heading-text normalization (source lines 1152–1170) -/

/-- Generic embedding of `re.sub` for patterns that always consume at least one
character: scan left to right, replace the leftmost match, continue after the
replacement.  `fuel` is instantiated with the input length, which bounds the
number of steps. -/
def scanSub (tryM : PyStr → Option (PyStr × PyStr)) : ℕ → PyStr → PyStr
  | 0, s => s
  | _ + 1, [] => []
  | fuel + 1, a :: t =>
      match tryM (a :: t) with
      | some (repl, rest) => repl ++ scanSub tryM fuel rest
      | none => a :: scanSub tryM fuel t

/-- Matcher for `re.sub(r'(Appendix [ABC]):\s+', r'\1: ', text)`. -/
def tryAppendix (s : PyStr) : Option (PyStr × PyStr) :=
  match s with
  | 'A' :: 'p' :: 'p' :: 'e' :: 'n' :: 'd' :: 'i' :: 'x' :: ' ' :: l :: ':' :: r =>
      if (l == 'A' || l == 'B' || l == 'C') && !(r.takeWhile isSpacePy).isEmpty then
        some ("Appendix ".data ++ [l, ':', ' '], r.dropWhile isSpacePy)
      else none
  | _ => none

/-- Embedding of `_normalize_heading_text` (source lines 1152–1170); its
`doc_type` parameter is unused by the source body. -/
def _normalize_heading_text (text0 : PyStr) (doc_type : PyStr) : PyStr :=
  let text1 :=
    if matchNumDotWs text0 then
      match text0.dropWhile isDigitPy with
      | '.' :: r => text0.takeWhile isDigitPy ++ '.' :: ' ' :: r.dropWhile isSpacePy
      | _ => text0
    else text0
  let text2 :=
    if matchSubsectionWs text1 then
      match text1.dropWhile isDigitPy with
      | '.' :: r =>
          text1.takeWhile isDigitPy ++ '.' ::
            (r.takeWhile isDigitPy ++ ' ' :: (r.dropWhile isDigitPy).dropWhile isSpacePy)
      | _ => text1
    else text1
  let text3 := scanSub tryAppendix text2.length text2
  stripPy text3 ++ [' ']

/-! ## Candidate level suggestion (source lines 898–1089) -/

/-- Embedding of `_is_likely_heading`.  The source returns a boolean and may
stash `span['suggested_level']`; every level assignment immediately precedes
`return True`, so the pair is modeled as `Option PyStr` (`none` = not a
heading).  Paths that return `True` without assigning a level yield the
consumer's `.get('suggested_level', 'H1')` default and are modeled as
`some "H1"`. -/
def _is_likely_heading (span : Span) (text : PyStr) : Option PyStr :=
  let tl := lowerPy text
  if criticalFile03.any (fun p => containsSub p tl) then
    (if containsSub "guidance".data tl then some "H3".data
     else if containsSub "milestones".data tl then some "H3".data
     else if containsSub "phase iii".data tl && containsSub "operating".data tl then
       some "H3".data
     else some "H1".data)
  else if containsSub "hope to see you there".data tl ||
      containsSub "hope to see".data tl then some "H1".data
  else if matchDateLike text || text == "March 21, 2003".data ||
      text == "April 21, 2003.".data then none
  else if rfpSkipPhrases.any (fun p => containsSub p tl) &&
      !(endsWithPy ":".data text && decide ((splitWsPy text).length ≤ 2)) then none
  else
    let size := getSizeOrFont span
    -- `size >= 15.5`
    if qle (Rat.divInt 31 2) size && rfpH1Keywords.any (fun k => containsSub k tl) then
      some "H1".data
    else if qle 12 size && qlt size 16 && matchAppendixLower tl then
      some "H2".data
    else if qle 12 size && qlt size 16 &&
        rfpH2Keywords.any (fun k => containsSub k tl) &&
        decide ((splitWsPy text).length ≤ 8) then some "H2".data
    else if qle 11 size && criticalH3.any (fun p => containsSub p tl) then
      some "H3".data
    else if qle 11 size && endsWithPy ":".data text &&
        (rfpH3Keywords.any (fun k => containsSub k tl) ||
          decide ((splitWsPy text).length ≤ 4)) then some "H3".data
    else if qle 11 size && matchNumDotWs text && decide (span.page ≥ 10) &&
        rfpH3Keywords.any (fun k => containsSub k tl) then some "H3".data
    else if qle 11 size && matchPhaseRoman tl then some "H3".data
    else if qle 11 size && tl == "milestones".data && qle 11 size then
      some "H3".data
    else if qle 11 size && startsWithPy "what could".data tl &&
        containsSub "really mean".data tl then some "H3".data
    else if qle 11 size && startsWithPy "for each".data tl &&
        forEachWords.any (fun w => containsSub w tl) then some "H4".data
    else if matchNumDotWs text && h1NumKeywords.any (fun k => containsSub k tl) then
      some "H1".data
    else if matchSubsectionWs text && !matchVersionHist tl &&
        subsectionKeywords.any (fun k => containsSub k tl) then some "H2".data
    else if structuralKeywords.any (fun k => containsSub k tl) &&
        decide ((splitWsPy text).length ≤ 4) then some "H1".data
    else
      let words := splitWsPy text
      if decide (words.length ≥ 2) &&
          words.any (fun w => pathwayWords.any (fun p => lowerPy w == p)) &&
          !(containsSub "options".data tl) then none
      else if decide (text.length > 100) then none
      else if decide (countCharPy ',' text > 2) then none
      else if matchVersionHist tl then none
      else if paragraphPhrases.any (fun p => containsSub p tl) then none
      else if (qle 14 size || (span.flags &&& 16) != 0) &&
          decide ((splitWsPy text).length ≤ 8) &&
          !(decide (countCharPy '.' text > 3)) then some "H1".data
      else none

/-! ## Margin grouping and level assignment (source lines 828–896) -/

/-- Loop state of `_group_by_left_margin`: the current group (nonempty) and its
reference margin `current_x` (the first member's x0). -/
def margin_aux (cur : List Span) (cx : ℚ) : List Span → List (List Span)
  | [] => [cur]
  | s :: rest =>
      if qle (qabs (qsub (getX0 s) cx)) 15 then margin_aux (cur ++ [s]) cx rest
      else cur :: margin_aux [s] (getX0 s) rest

/-- Embedding of `_group_by_left_margin` (source lines 828–860). -/
def _group_by_left_margin (spans : List Span) : List (List Span) :=
  match sortBy leX0 spans with
  | [] => []
  | s :: rest => margin_aux [s] (getX0 s) rest

/-- Embedding of `_assign_hierarchy_by_position` (source lines 862–896). -/
def _assign_hierarchy_by_position (margin_groups : List (List Span)) : List Cand :=
  margin_groups.flatMap (fun group =>
    (sortBy lePageY0 group).filterMap (fun s =>
      match _is_likely_heading s (stripPy s.text) with
      | some lvl =>
          some ⟨lvl, s.text, s.page, getX0 s, getY0 s, s.size.getD 12, s.flags⟩
      | none => none))

/-! ## Strict hierarchy enforcement (source lines 1091–1150) -/

/-- The scan of `_enforce_strict_hierarchy`: `h1`/`h2`/`h3` are the
`current_h1_active`/`current_h2_active`/`current_h3_active` flags. -/
def enforceLoop (dt : PyStr) (h1 h2 h3 : Bool) : List Cand → List Heading
  | [] => []
  | c :: rest =>
      if c.level == "H1".data then
        ⟨"H1".data, _normalize_heading_text c.text dt, c.page⟩ ::
          enforceLoop dt true false false rest
      else if c.level == "H2".data then
        if h1 then
          ⟨"H2".data, _normalize_heading_text c.text dt, c.page⟩ ::
            enforceLoop dt h1 true false rest
        else enforceLoop dt h1 h2 h3 rest
      else if c.level == "H3".data then
        if h2 then
          ⟨"H3".data, _normalize_heading_text c.text dt, c.page⟩ ::
            enforceLoop dt h1 h2 true rest
        else enforceLoop dt h1 h2 h3 rest
      else if c.level == "H4".data then
        if h3 then
          ⟨"H4".data, _normalize_heading_text c.text dt, c.page⟩ ::
            enforceLoop dt h1 h2 h3 rest
        else enforceLoop dt h1 h2 h3 rest
      else enforceLoop dt h1 h2 h3 rest

/-- Embedding of `_enforce_strict_hierarchy` (source lines 1091–1150). -/
def _enforce_strict_hierarchy (candidates : List Cand) (doc_type : PyStr) :
    List Heading :=
  enforceLoop doc_type false false false (sortBy leCand candidates)

/-! ## Finalization (source lines 1593–1623) -/

/-- The key `(clean_text.lower().strip(), page)` used by `_finalize_headings`. -/
def finalizeKey (cleanText : PyStr) (page : ℤ) : PyStr × ℤ :=
  (stripPy (lowerPy cleanText), page)

/-- The dedup loop of `_finalize_headings`; `seen` models the Python set. -/
def finalizeLoop (seen : List (PyStr × ℤ)) : List Heading → List Heading
  | [] => []
  | h :: rest =>
      let clean := lstripPy h.text
      let key := finalizeKey clean h.page
      if !(seen.any (fun k => k == key)) && decide ((stripPy clean).length ≥ 3) then
        ⟨h.level, clean, h.page⟩ :: finalizeLoop (key :: seen) rest
      else finalizeLoop seen rest

/-- Embedding of `_finalize_headings` (source lines 1593–1623). -/
def _finalize_headings (headings : List Heading) : List Heading :=
  sortBy leHeadingPage (finalizeLoop [] headings)

/-! ## Invitation path (source lines 1625–1652) -/

/-- Invitation keywords (source line 1634). -/
def hopeSeeThere : List PyStr := ["hope", "see", "there"].map String.data

/-- Embedding of `_extract_invitation_headings` (source lines 1625–1652). -/
def _extract_invitation_headings (spans : List Span) : List Heading :=
  let candidates := spans.filterMap (fun s =>
    if hopeSeeThere.any (fun w => containsSub w (lowerPy s.text)) &&
        decide ((stripPy s.text).length ≥ 10) then
      some ⟨"H1".data,
        _normalize_heading_text (joinSpace (splitWsPy s.text)) "invitation".data,
        s.page⟩
    else none)
  match sortBy leLenDesc candidates with
  | [] => []
  | best :: _ => [best]

/-! ## Hierarchical extraction (source lines 714–826) -/

/-- One iteration of the multi-line stitching `while` loop (source lines
730–777): examine the current span and possibly merge the following span into
it (the source pops `sorted_spans[i+1]`).  The second pattern tests the
`text`/`text_lower` bound at iteration start, which the first merge does not
refresh — exactly as the source does. -/
def stitchStep (doc_type : PyStr) (s : Span) (rest : List Span) :
    Span × List Span :=
  let text := stripPy s.text
  let tl := lowerPy text
  let step1 : Span × List Span :=
    if doc_type == "rfp".data && containsSub "critical component".data tl &&
        containsSub "implementing".data tl then
      match rest with
      | n :: r' =>
          if containsSub "prosperity strategy".data (lowerPy (stripPy n.text)) &&
              n.page == s.page && qlt (qabs (qsub (getY0 n) (getY0 s))) 30 then
            let combined := text ++ ' ' :: (stripPy n.text ++ [' '])
            ({ s with text := combined, font_size := qmax s.font_size n.font_size }, r')
          else (s, rest)
      | [] => (s, rest)
    else (s, rest)
  match step1 with
  | (s1, rest1) =>
    if matchThreeDotWs text && containsSub "overview".data tl then
      match rest1 with
      | n :: r' =>
          if lowerPy (stripPy n.text) == "syllabus".data && n.page == s1.page &&
              qlt (qabs (qsub (getY0 n) (getY0 s1))) 25 then
            ({ s1 with text := text ++ stripPy n.text }, r')
          else (s1, rest1)
      | [] => (s1, rest1)
    else (s1, rest1)

/-- The stitching loop, fuelled by the list length (each iteration consumes at
least one span, so the fuel never runs out). -/
def stitchAux (doc_type : PyStr) : ℕ → List Span → List Span
  | 0, l => l
  | _ + 1, [] => []
  | fuel + 1, s :: rest =>
      match stitchStep doc_type s rest with
      | (s', rest') => s' :: stitchAux doc_type fuel rest'

/-- The candidate filter of `_extract_hierarchical_headings` (source lines
779–812). -/
def keepPotentialHeading (s : Span) : Bool :=
  let text := stripPy s.text
  !text.isEmpty && !_should_skip_span text &&
    !(decide (countCharPy '.' text > 20)) && !matchTocDotted text &&
    !matchTocDotNum text &&
    !(problematicTimelines.any (fun p => p == stripPy text)) &&
    !(decide (text.length > 150))

/-- Embedding of `_extract_hierarchical_headings` (source lines 714–826). -/
def _extract_hierarchical_headings (spans : List Span) (doc_type : PyStr) :
    List Heading :=
  if spans.isEmpty then []
  else
    let sorted_spans := sortBy lePageY0X0 spans
    let stitched := stitchAux doc_type sorted_spans.length sorted_spans
    let potential := stitched.filter keepPotentialHeading
    if potential.isEmpty then []
    else
      _enforce_strict_hierarchy
        (_assign_hierarchy_by_position (_group_by_left_margin potential)) doc_type

/-! ## Heading classification (source lines 649–712) -/

/-- Title component words for RFP title filtering (source line 682). -/
def rfpTitleWords : List PyStr :=
  ["Ontario", "Libraries", "Present", "Proposal", "Developing",
    "Business Plan", "Digital Library"].map String.data

/-- Embedding of `_classify_headings` (source lines 649–712).  The
`page_avg_sizes` argument is never read by the source body. -/
def _classify_headings (spans : List Span) (page_avg_sizes : List ℚ)
    (title : PyStr) : List Heading :=
  let grouped_spans := _group_spans_by_line spans
  let doc_type := _detect_document_type grouped_spans
  if doc_type == "form".data then []
  else
    let grouped_spans2 :=
      if !(stripPy title).isEmpty then
        let title_clean := stripPy title
        let title_parts :=
          if containsSub "RFP".data title_clean &&
              decide (title_clean.length > 50) then
            (grouped_spans.filter (fun s => s.page == 0)).filterMap (fun s =>
              let text := stripPy s.text
              if rfpTitleWords.any (fun w => containsSub w text) &&
                  !(endsWithPy ":".data text || startsWithPy "1.".data text ||
                    startsWithPy "2.".data text ||
                    containsSub "Summary".data text ||
                    containsSub "Background".data text ||
                    containsSub "Timeline".data text) then some text
              else none)
          else []
        grouped_spans.filter (fun s =>
          let text := stripPy s.text
          !(text == title_clean) && !(title_parts.any (fun p => p == text)))
      else grouped_spans
    if doc_type == "form".data then []
    else if doc_type == "invitation".data then
      _extract_invitation_headings grouped_spans2
    else
      _finalize_headings (_extract_hierarchical_headings grouped_spans2 doc_type)

/-! ## Page-number adjustment (source lines 185–261) -/

/-- Offset indicator phrases for single-page invitations (source line 207). -/
def hopeTopjump : List PyStr := ["hope to see", "topjump"].map String.data

/-- Embedding of `_adjust_page_numbers` (source lines 185–261). -/
def _adjust_page_numbers (spans : List Span) : List Span :=
  if spans.isEmpty then spans
  else
    let max_page := maxIntD (spans.map (·.page)) 0
    let all_text := joinSpace (spans.map (fun s => lowerPy s.text))
    let page_offset : ℤ :=
      if containsSub "foundation level".data all_text &&
          containsSub "extension".data all_text then 2
      else if containsSub "rfp".data all_text &&
          (containsSub "ontario".data all_text ||
            containsSub "digital library".data all_text) then 1
      else if hopeTopjump.any (fun p => containsSub p all_text) then 1
      else if containsSub "stem".data all_text &&
          containsSub "parsippany".data all_text then 0
      else 1
    let first_content_page : Option ℤ :=
      match spans.find? (fun s =>
        exactContentHeadings.any (fun h => h == stripPy (lowerPy s.text))) with
      | some s => some s.page
      | none =>
        match spans.find? (fun s =>
          contentIndicators.any (fun ind =>
            containsSub ind (stripPy (lowerPy s.text)))) with
        | some s => some s.page
        | none => none
    spans.filterMap (fun s =>
      match first_content_page with
      | some fcp =>
          let p := s.page - fcp + page_offset
          if decide (p ≥ 0) then some { s with page := p } else none
      | none =>
          if max_page == 0 then
            some { s with page := if decide (page_offset > 0) then page_offset else 1 }
          else some { s with page := s.page + page_offset })

/-! ## RFP title cleanup (source lines 418–477) -/

/-- `re.sub(r'RFP:FP:', 'RFP:', ...)`. -/
def tryRfpFp (s : PyStr) : Option (PyStr × PyStr) :=
  match s with
  | 'R' :: 'F' :: 'P' :: ':' :: 'F' :: 'P' :: ':' :: r => some ("RFP:".data, r)
  | _ => none

/-- `re.sub(r'RFP:\s*R+\s*', 'RFP:', ...)`. -/
def tryRfpR (s : PyStr) : Option (PyStr × PyStr) :=
  match s with
  | 'R' :: 'F' :: 'P' :: ':' :: r =>
      let r1 := r.dropWhile isSpacePy
      if !(r1.takeWhile (fun c => c == 'R')).isEmpty then
        some ("RFP:".data, (r1.dropWhile (fun c => c == 'R')).dropWhile isSpacePy)
      else none
  | _ => none

/-- `re.sub(r'quest\s*f+\s*', 'quest ', ...)`. -/
def tryQuestF (s : PyStr) : Option (PyStr × PyStr) :=
  match s with
  | 'q' :: 'u' :: 'e' :: 's' :: 't' :: r =>
      let r1 := r.dropWhile isSpacePy
      if !(r1.takeWhile (fun c => c == 'f')).isEmpty then
        some ("quest ".data, (r1.dropWhile (fun c => c == 'f')).dropWhile isSpacePy)
      else none
  | _ => none

/-- `re.sub(r'r\s*Pr+\s*', '', ...)`. -/
def tryRPr (s : PyStr) : Option (PyStr × PyStr) :=
  match s with
  | 'r' :: r =>
      let r1 := r.dropWhile isSpacePy
      (match r1 with
       | 'P' :: r2 =>
           if !(r2.takeWhile (fun c => c == 'r')).isEmpty then
             some ([], (r2.dropWhile (fun c => c == 'r')).dropWhile isSpacePy)
           else none
       | _ => none)
  | _ => none

/-- `re.sub(r'oposal\s*', 'oposal ', ...)`. -/
def tryOposal (s : PyStr) : Option (PyStr × PyStr) :=
  match s with
  | 'o' :: 'p' :: 'o' :: 's' :: 'a' :: 'l' :: r =>
      some ("oposal ".data, r.dropWhile isSpacePy)
  | _ => none

/-- `re.sub(r'Rqu\s*', 'Request ', ...)`. -/
def tryRqu (s : PyStr) : Option (PyStr × PyStr) :=
  match s with
  | 'R' :: 'q' :: 'u' :: r => some ("Request ".data, r.dropWhile isSpacePy)
  | _ => none

/-- `re.sub(r'oProposal', 'Proposal', ...)`. -/
def tryOProposal (s : PyStr) : Option (PyStr × PyStr) :=
  match s with
  | 'o' :: 'P' :: 'r' :: 'o' :: 'p' :: 'o' :: 's' :: 'a' :: 'l' :: r =>
      some ("Proposal".data, r)
  | _ => none

/-- The duplicate-word removal loop of `_clean_rfp_title` (source lines
464–471); `prev` advances only on kept words, as in the source. -/
def dedupWordsAux (prev : PyStr) : List PyStr → List PyStr
  | [] => []
  | w :: rest =>
      if !(lowerPy w == lowerPy prev) && decide (w.length > 1) then
        w :: dedupWordsAux w rest
      else dedupWordsAux prev rest

/-- `re.sub(r'\s+', ' ', ...)`: each whitespace run becomes one space. -/
def collapseWsRun : PyStr → PyStr
  | [] => []
  | [a] => if isSpacePy a then [' '] else [a]
  | a :: b :: t =>
      if isSpacePy a && isSpacePy b then collapseWsRun (b :: t)
      else (if isSpacePy a then ' ' else a) :: collapseWsRun (b :: t)

/-- Embedding of `_clean_rfp_title` (source lines 418–477). -/
def _clean_rfp_title (title0 : PyStr) : PyStr :=
  let goodPath : Option PyStr :=
    if containsSub "To Present a Proposal for Developing".data title0 &&
        containsSub "Digital Library".data title0 then
      let parts : List PyStr :=
        (if containsSub "RFP".data title0 then ["RFP:".data] else []) ++
        (if containsSub "Request".data title0 || containsSub "quest".data title0
          then ["Request for Proposal".data] else []) ++
        (if containsSub "To Present a Proposal for Developing".data title0
          then ["To Present a Proposal for Developing".data] else []) ++
        (if containsSub "the Business Plan for the Ontario".data title0
          then ["the Business Plan for the Ontario".data] else []) ++
        (if containsSub "Digital Library".data title0
          then ["Digital Library".data] else [])
      if decide (parts.length > 2) then some (joinSpace parts ++ [' ']) else none
    else none
  match goodPath with
  | some r => r
  | none =>
      let t1 := scanSub tryRfpFp title0.length title0
      let t2 := scanSub tryRfpR t1.length t1
      let t3 := scanSub tryQuestF t2.length t2
      let t4 := scanSub tryRPr t3.length t3
      let t5 := scanSub tryOposal t4.length t4
      let t6 := scanSub tryRqu t5.length t5
      let t7 := scanSub tryOProposal t6.length t6
      let cleaned := dedupWordsAux [] (splitWsPy t7)
      stripPy (collapseWsRun (joinSpace cleaned))

/-! ## Title detection (source lines 310–416) -/

/-- `invitation_indicators` (source lines 330–333). -/
def invitationIndicators : List PyStr :=
  ["hope to see", "pigeon forge", "rsvp", "party", "invitation",
    "please visit", "waiver", "topjump"].map String.data

/-- Strong invitation phrases (source line 337). -/
def strongInvitation : List PyStr :=
  ["rsvp", "invitation", "topjump"].map String.data

/-- Boilerplate words excluded from title parts (source line 365). -/
def titleSkipWords : List PyStr :=
  ["version", "international", "board", "copyright"].map String.data

/-- Location words that suppress a title (source line 373). -/
def addrWords : List PyStr :=
  ["pigeon forge", "tn", "address"].map String.data

/-- Embedding of `_extract_title` (source lines 310–416). -/
def _extract_title (spans : List Span) : PyStr :=
  if spans.isEmpty then []
  else
    let first_page_spans := spans.filter (fun s => s.page == 0)
    if first_page_spans.isEmpty then []
    else
      let page_width :=
        if !first_page_spans.isEmpty then
          maxQD (first_page_spans.map (fun s => qadd s.x s.width)) 0
        else 1
      let page_height :=
        if !first_page_spans.isEmpty then
          maxQD (first_page_spans.map (fun s => qadd s.y s.height)) 0
        else 1
      let all_text := lowerPy (joinSpace (first_page_spans.map (·.text)))
      let invitation_count :=
        (invitationIndicators.filter (fun p => containsSub p all_text)).length
      if decide (invitation_count ≥ 2) ||
          strongInvitation.any (fun p => containsSub p all_text) then []
      else
        -- `s["y"] < page_height * 0.5`
        let upper_spans :=
          first_page_spans.filter (fun s => qlt s.y (qmul page_height (Rat.divInt 1 2)))
        let strat1 : Option PyStr :=
          if !upper_spans.isEmpty then
            let all_font_sizes := first_page_spans.map (·.font_size)
            let max_font_size :=
              if !all_font_sizes.isEmpty then maxQD all_font_sizes 0 else 12
            -- `s["font_size"] >= max_font_size * 0.95`
            let largest_spans := upper_spans.filter (fun s =>
              qle (qmul max_font_size (Rat.divInt 19 20)) s.font_size)
            let is_rfp_doc := first_page_spans.any (fun s =>
              containsSub "rfp".data (lowerPy s.text))
            let title_candidate_spans :=
              if is_rfp_doc then
                -- `s["font_size"] >= max_font_size * 0.7`
                let medium_large := upper_spans.filter (fun s =>
                  qle (qmul max_font_size (Rat.divInt 7 10)) s.font_size)
                largest_spans ++
                  medium_large.filter (fun s => !(largest_spans.any (fun t => t == s)))
              else largest_spans
            let title_parts := (sortBy leYX title_candidate_spans).filterMap (fun s =>
              let text := stripPy s.text
              if !text.isEmpty && decide (text.length ≥ 3) && !_is_form_field text &&
                  !(titleSkipWords.any (fun w => containsSub w (lowerPy text))) then
                some text
              else none)
            if !title_parts.isEmpty && hopeSeeThere.any (fun w =>
                containsSub w (lowerPy (joinSpace title_parts))) then some []
            else if !title_parts.isEmpty && addrWords.any (fun w =>
                containsSub w (lowerPy (joinSpace title_parts))) then some []
            else
              match title_parts with
              | [] => none
              | [p] =>
                  (match title_candidate_spans.find? (fun s => stripPy s.text == p) with
                   | some os => some os.text
                   | none => some p)
              | _ =>
                  let sorted_spans := sortBy leYX (title_candidate_spans.filter
                    (fun s => title_parts.any (fun p => p == stripPy s.text)))
                  let combined := (sorted_spans.map (·.text)).flatten
                  if containsSub "rfp".data (lowerPy combined) then
                    some (_clean_rfp_title combined)
                  else some combined
          else none
        match strat1 with
        | some r => r
        | none =>
          let upper_half_spans :=
            first_page_spans.filter (fun s => qlt s.y (qmul page_height (Rat.divInt 1 2)))
          -- `line_coverage > 0.6`
          let strat2 := (sortBy leSizeDesc upper_half_spans).find? (fun s =>
            let line_coverage := if qlt 0 page_width then qdiv s.width page_width else 0
            let text_length := (stripPy s.text).length
            qlt (Rat.divInt 3 5) line_coverage && decide (text_length ≥ 10) &&
              decide (text_length ≤ 150) && !_is_form_field s.text)
          match strat2 with
          | some s => stripPy s.text
          | none =>
            match (sortBy leYX first_page_spans).find? (fun s =>
              let text := stripPy s.text
              decide (text.length ≥ 10) && decide (text.length ≤ 150) &&
                !_is_form_field text && _looks_like_title text) with
            | some s => stripPy s.text
            | none => []

/-! ## Page span extraction and the top-level entry point
      (source lines 121–183 and 263–308)

Python exceptions are modeled as `Except` values: a page whose content cannot
be decoded (`page.get_text` raising, caught at source lines 302–303) is an
`Except.error`, and a document that cannot be opened (`fitz.open` raising,
caught at source lines 181–183) likewise. -/

/-- A caught Python exception (its message). -/
abbrev PyErr := PyStr

/-- One raw text fragment of `page.get_text("dict")`. -/
structure RawSpan where
  text : PyStr
  size : ℚ
  font : PyStr
  flags : ℕ
  x0 : ℚ
  y0 : ℚ
  x1 : ℚ
  y1 : ℚ
  deriving DecidableEq, Repr

/-- One line of a text block. -/
structure RawLine where
  spans : List RawSpan
  deriving DecidableEq, Repr

/-- One block; image blocks carry no `"lines"` key (`none`). -/
structure RawBlock where
  lines : Option (List RawLine)
  deriving DecidableEq, Repr

/-- A page's decoded content, or the exception `page.get_text` raised. -/
abbrev PageData := Except PyErr (List RawBlock)

/-- Embedding of `_extract_page_spans` (source lines 263–308): on a decode
error the exception is caught, zero spans are produced and the page's average
size falls back to `12.0`. -/
def _extract_page_spans (page : PageData) (page_num : ℤ) : List Span × ℚ :=
  match page with
  | .error _ => ([], 12)
  | .ok blocks =>
      let raws := blocks.flatMap (fun b =>
        match b.lines with
        | none => []
        | some ls => ls.flatMap (fun l => l.spans))
      let spans := raws.filterMap (fun rs =>
        if rs.text.isEmpty || (stripPy rs.text).isEmpty then none
        else some
          { text := normalize_text rs.text
            original_text := rs.text
            font_size := rs.size
            font := rs.font
            flags := rs.flags
            x := rs.x0
            y := rs.y0
            width := qsub rs.x1 rs.x0
            height := qsub rs.y1 rs.y0
            page := page_num })
      let font_sizes := spans.map (·.font_size)
      (spans, if font_sizes.isEmpty then 12 else medianQ font_sizes)

/-- Embedding of `extract_outline` (source lines 121–183).  The first argument
is the result of `fitz.open`: `Except.error` when opening raised (the
`except` at source lines 181–183 catches it and returns the empty sentinel),
otherwise the list of pages.  The path-conditioned block at source lines
155–174 (the manual `Phase III` insertion) is included. -/
def extract_outline (doc : Except PyErr (List PageData)) (pdf_path : PyStr) :
    ExtractResult :=
  match doc with
  | .error _ => ⟨[], []⟩
  | .ok pages =>
      let results := pages.enum.map (fun pi => _extract_page_spans pi.2 (pi.1 : ℤ))
      let all_spans := (results.map Prod.fst).flatten
      let page_avg_sizes := results.map Prod.snd
      let title := _extract_title all_spans
      let adjusted := _adjust_page_numbers all_spans
      let outline := _classify_headings adjusted page_avg_sizes title
      let lower_path := lowerPy pdf_path
      let outline2 :=
        if containsSub "rfp".data lower_path ||
            containsSub "file03".data lower_path then
          if !(outline.any (fun h => containsSub "phase iii".data (lowerPy h.text))) then
            match outline.findIdx? (fun h =>
                containsSub "phase ii".data (lowerPy h.text)) with
            | some i =>
                List.insertIdx (i + 1)
                  ⟨"H3".data, "Phase III: Operating and Growing the ODL ".data,
                    (outline.getD i default).page⟩ outline
            | none => outline
          else outline
        else outline
      ⟨title, outline2⟩

/-! ## General lemmas about the embedding's building blocks -/

theorem insertBy_perm (le : α → α → Bool) (x : α) :
    ∀ l : List α, List.Perm (insertBy le x l) (x :: l) := by
  intro l
  induction l with
  | nil => rfl
  | cons y t ih =>
    rw [insertBy]
    split
    · rfl
    · exact (List.Perm.cons y ih).trans (List.Perm.swap x y t)

theorem sortBy_perm (le : α → α → Bool) : ∀ l : List α, List.Perm (sortBy le l) l := by
  intro l
  induction l with
  | nil => rfl
  | cons x t ih => exact (insertBy_perm le x (sortBy le t)).trans (List.Perm.cons x ih)

theorem mem_sortBy {le : α → α → Bool} {l : List α} {a : α} :
    a ∈ sortBy le l ↔ a ∈ l :=
  (sortBy_perm le l).mem_iff

/-- `needle in haystack` coincides with list-infix containment. -/
theorem containsSub_iff_infix {needle hay : PyStr} :
    containsSub needle hay = true ↔ needle <:+: hay := by
  rw [containsSub, List.any_eq_true]
  constructor
  · rintro ⟨t, ht, hp⟩
    exact List.infix_iff_prefix_suffix.2
      ⟨t, List.isPrefixOf_iff_prefix.1 hp, (List.mem_tails t hay).1 ht⟩
  · intro h
    obtain ⟨t, hp, hs⟩ := List.infix_iff_prefix_suffix.1 h
    exact ⟨t, (List.mem_tails t hay).2 hs, List.isPrefixOf_iff_prefix.2 hp⟩

theorem isSpacePy_toLowerPy (c : Char) : isSpacePy (toLowerPy c) = isSpacePy c := by
  rw [toLowerPy]
  by_cases h0 : c = 'A'
  · subst h0; rfl
  rw [if_neg h0]
  by_cases h1 : c = 'B'
  · subst h1; rfl
  rw [if_neg h1]
  by_cases h2 : c = 'C'
  · subst h2; rfl
  rw [if_neg h2]
  by_cases h3 : c = 'D'
  · subst h3; rfl
  rw [if_neg h3]
  by_cases h4 : c = 'E'
  · subst h4; rfl
  rw [if_neg h4]
  by_cases h5 : c = 'F'
  · subst h5; rfl
  rw [if_neg h5]
  by_cases h6 : c = 'G'
  · subst h6; rfl
  rw [if_neg h6]
  by_cases h7 : c = 'H'
  · subst h7; rfl
  rw [if_neg h7]
  by_cases h8 : c = 'I'
  · subst h8; rfl
  rw [if_neg h8]
  by_cases h9 : c = 'J'
  · subst h9; rfl
  rw [if_neg h9]
  by_cases h10 : c = 'K'
  · subst h10; rfl
  rw [if_neg h10]
  by_cases h11 : c = 'L'
  · subst h11; rfl
  rw [if_neg h11]
  by_cases h12 : c = 'M'
  · subst h12; rfl
  rw [if_neg h12]
  by_cases h13 : c = 'N'
  · subst h13; rfl
  rw [if_neg h13]
  by_cases h14 : c = 'O'
  · subst h14; rfl
  rw [if_neg h14]
  by_cases h15 : c = 'P'
  · subst h15; rfl
  rw [if_neg h15]
  by_cases h16 : c = 'Q'
  · subst h16; rfl
  rw [if_neg h16]
  by_cases h17 : c = 'R'
  · subst h17; rfl
  rw [if_neg h17]
  by_cases h18 : c = 'S'
  · subst h18; rfl
  rw [if_neg h18]
  by_cases h19 : c = 'T'
  · subst h19; rfl
  rw [if_neg h19]
  by_cases h20 : c = 'U'
  · subst h20; rfl
  rw [if_neg h20]
  by_cases h21 : c = 'V'
  · subst h21; rfl
  rw [if_neg h21]
  by_cases h22 : c = 'W'
  · subst h22; rfl
  rw [if_neg h22]
  by_cases h23 : c = 'X'
  · subst h23; rfl
  rw [if_neg h23]
  by_cases h24 : c = 'Y'
  · subst h24; rfl
  rw [if_neg h24]
  by_cases h25 : c = 'Z'
  · subst h25; rfl
  rw [if_neg h25]

theorem isSpacePy_comp_toLowerPy : (isSpacePy ∘ toLowerPy) = isSpacePy :=
  funext isSpacePy_toLowerPy

theorem lstripPy_lowerPy (t : PyStr) : lstripPy (lowerPy t) = lowerPy (lstripPy t) := by
  rw [lstripPy, lstripPy, lowerPy, lowerPy, List.dropWhile_map, isSpacePy_comp_toLowerPy]

theorem rstripPy_lowerPy (t : PyStr) : rstripPy (lowerPy t) = lowerPy (rstripPy t) := by
  rw [rstripPy, rstripPy, lowerPy, lowerPy, ← List.map_reverse, List.dropWhile_map,
    isSpacePy_comp_toLowerPy, ← List.map_reverse]

theorem stripPy_lowerPy (t : PyStr) : stripPy (lowerPy t) = lowerPy (stripPy t) := by
  rw [stripPy, stripPy, lstripPy_lowerPy, rstripPy_lowerPy]

theorem dropWhile_idem (p : α → Bool) : ∀ l : List α,
    List.dropWhile p (List.dropWhile p l) = List.dropWhile p l := by
  intro l
  induction l with
  | nil => rfl
  | cons a t ih =>
    by_cases h : p a
    · rw [List.dropWhile_cons_of_pos h, ih]
    · rw [List.dropWhile_cons_of_neg h, List.dropWhile_cons_of_neg h]

theorem lstripPy_idem (t : PyStr) : lstripPy (lstripPy t) = lstripPy t :=
  dropWhile_idem isSpacePy t

theorem stripPy_lstripPy (t : PyStr) : stripPy (lstripPy t) = stripPy t := by
  rw [stripPy, stripPy, lstripPy_idem]

theorem lstripPy_suffix (t : PyStr) : lstripPy t <:+ t := List.dropWhile_suffix isSpacePy

theorem rstripPy_front (t : PyStr) : rstripPy t <+: t := by
  rw [rstripPy]
  have h := List.dropWhile_suffix (l := t.reverse) isSpacePy
  obtain ⟨u, hu⟩ := h
  refine ⟨u.reverse, ?_⟩
  rw [← List.reverse_append, hu, List.reverse_reverse]

theorem stripPy_infix (t : PyStr) : stripPy t <:+: t :=
  ((rstripPy_front (lstripPy t)).isInfix).trans (lstripPy_suffix t).isInfix

theorem infix_map (f : α → β) {l₁ l₂ : List α} (h : l₁ <:+: l₂) :
    l₁.map f <:+: l₂.map f := by
  obtain ⟨u, v, rfl⟩ := h
  exact ⟨u.map f, v.map f, by simp⟩

theorem lowerPy_length (t : PyStr) : (lowerPy t).length = t.length :=
  List.length_map t toLowerPy

theorem stripPy_lowerPy_length (t : PyStr) :
    (stripPy (lowerPy t)).length = (stripPy t).length := by
  rw [stripPy_lowerPy, lowerPy_length]

theorem snd_mem_of_mem_enumFrom {l : List α} :
    ∀ {n : ℕ} {x : ℕ × α}, x ∈ List.enumFrom n l → x.2 ∈ l := by
  induction l with
  | nil => intro n x h; cases h
  | cons a t ih =>
    intro n x h
    rw [List.enumFrom] at h
    rcases List.mem_cons.1 h with h | h
    · subst h; exact List.mem_cons_self a t
    · exact List.mem_cons_of_mem a (ih h)

theorem filterMap_map_sublist (f : α → β) (g : α → Option α)
    (hg : ∀ a b, g a = some b → f b = f a) :
    ∀ l : List α, List.Sublist ((l.filterMap g).map f) (l.map f) := by
  intro l
  induction l with
  | nil => simp
  | cons a t ih =>
    rw [List.filterMap_cons]
    cases hga : g a with
    | none => exact List.Sublist.cons (f a) ih
    | some b =>
      rw [List.map_cons, List.map_cons, hg a b hga]
      exact List.Sublist.cons₂ (f a) ih

/-! ## The claims -/

/-- C6: text normalization is idempotent — for every string `t`,
`normalize_text (normalize_text t) = normalize_text t`.  The output of
`normalize_text` never has three equal consecutive non-newline characters on a
line nor two consecutive spaces, and on such strings `normalize_text` is the
identity. -/
theorem c6_normalize_text_idempotent (t : PyStr) :
    normalize_text (normalize_text t) = normalize_text t :=
  normalize_text_eq_self (noTriple_normalize_text t) (noDbSpace_normalize_text t)

/-- C7, counterexample to the original claim: `normalize_text` does not return
the empty string on whitespace-only input (a single space is returned
unchanged), and it does not apply Unicode NFC — the decomposed
`'e' + U+0301` and the precomposed `'é'` normalize to distinct strings. -/
theorem c7_counterexample :
    normalize_text [' '] ≠ [] ∧
    normalize_text ['e', '́'] ≠ normalize_text ['é'] := by decide

/-- C7, amended: `normalize_text` performs no Unicode composition and does not
empty whitespace-only input.  On any string with no triple character run and
no double space — decomposed accent sequences and a lone space included — it
is the identity, so canonically-equivalent encodings stay distinct. -/
theorem c7_normalize_no_nfc :
    (∀ t : PyStr, NoTriple t ∧ NoDbSpace t → normalize_text t = t) ∧
    normalize_text ['e', '́'] = ['e', '́'] ∧
    normalize_text ['é'] = ['é'] ∧ normalize_text [' '] = [' '] :=
  ⟨fun _ h => normalize_text_eq_self h.1 h.2, by decide, by decide, by decide⟩

/-- `heading` with the `page` field cleared, for stating that
`_adjust_page_numbers` touches nothing but `page`. -/
def erasePage (s : Span) : Span := { s with page := 0 }

/-- C10: `_adjust_page_numbers` only drops spans or rewrites their `page`
field: after clearing `page` on both sides, its output is a sublist of its
input — so every output span is a copy of exactly one input span with all
other fields unchanged, no input span contributes twice, and relative order
is preserved. -/
theorem c10_adjust_page_numbers_frame (spans : List Span) :
    List.Sublist ((_adjust_page_numbers spans).map erasePage)
      (spans.map erasePage) := by
  rw [_adjust_page_numbers]
  split
  · exact List.Sublist.refl _
  · refine filterMap_map_sublist erasePage _ ?_ spans
    intro a b hab
    dsimp only at hab
    repeat' split at hab
    all_goals
      first
        | (injection hab with h; subst h; rfl)
        | cases hab

/-- A raw page whose two fragments sit at left margins `x0 = 0` and
`x0 = 100`. -/
def c8page : PageData :=
  Except.ok [⟨some [⟨[⟨"Alpha".data, 12, "F".data, 0, 0, 0, 40, 10⟩]⟩,
                    ⟨[⟨"Beta".data, 12, "F".data, 0, 100, 50, 140, 60⟩]⟩]⟩]

/-- The spans the extraction step produces for `c8page`. -/
def c8spans : List Span := (_extract_page_spans c8page 0).1

/-- C8: the margin-grouping step does not separate candidates whose left
margins differ by far more than the 15-unit tolerance.  Page extraction
stores the left margin under the `x` key and never sets `x0`, while
`_group_by_left_margin` clusters by `span.get("x0", 0)`; on extracted spans
that read is always `0`, so two spans at margins `0` and `100` land in one
cluster instead of two. -/
theorem c8_margin_grouping_single_cluster :
    (c8spans.map fun s => (s.text, s.x, s.x0)) =
      [("Alpha".data, (0 : ℚ), (none : Option ℚ)),
       ("Beta".data, (100 : ℚ), (none : Option ℚ))] ∧
    _group_by_left_margin c8spans = [c8spans] := by decide

/-- C5: no exception propagates out of `extract_outline`.  A document-open
failure yields the sentinel `{title := "", outline := []}`; a page decode
failure is caught inside `_extract_page_spans`, which returns zero spans and
the default average size `12.0`; and a document every page of which fails to
decode still produces the sentinel result rather than an error. -/
theorem c5_no_exception_propagation :
    (∀ (e : PyErr) (path : PyStr), extract_outline (Except.error e) path = ⟨[], []⟩) ∧
    (∀ (e : PyErr) (n : ℤ), _extract_page_spans (Except.error e) n = ([], 12)) ∧
    (∀ (es : List PyErr) (path : PyStr),
      extract_outline (Except.ok (es.map Except.error)) path = ⟨[], []⟩) := by
  refine ⟨fun e path => rfl, fun e n => rfl, fun es path => ?_⟩
  simp only [extract_outline]
  have hnil : (((es.map Except.error).enum.map
      (fun pi => _extract_page_spans pi.2 (pi.1 : ℤ))).map Prod.fst).flatten = [] := by
    rw [List.flatten_eq_nil_iff]
    intro x hx
    rw [List.mem_map] at hx
    obtain ⟨r, hr, rfl⟩ := hx
    rw [List.mem_map] at hr
    obtain ⟨pi, hpi, rfl⟩ := hr
    have h2 := snd_mem_of_mem_enumFrom hpi
    rw [List.mem_map] at h2
    obtain ⟨e, -, he⟩ := h2
    rw [← he]
    rfl
  rw [hnil]
  split
  · split
    · rfl
    · rfl
  · rfl

/-- The invitation path returns at most one heading, always at level `H1`:
every candidate it builds carries level `"H1"`, and only the longest one (the
head of the length-descending sort) is kept. -/
theorem invitation_headings_spec (sp : List Span) :
    (_extract_invitation_headings sp).length ≤ 1 ∧
    ∀ e ∈ _extract_invitation_headings sp, e.level = "H1".data := by
  simp only [_extract_invitation_headings]
  split
  · exact ⟨Nat.zero_le 1, fun e he => absurd he (List.not_mem_nil e)⟩
  next best rest heq =>
    refine ⟨Nat.le_refl 1, fun e he => ?_⟩
    rw [List.mem_singleton] at he
    subst he
    have hb := List.mem_cons_self e rest
    rw [← heq, mem_sortBy, List.mem_filterMap] at hb
    obtain ⟨s, -, hfs⟩ := hb
    split at hfs
    · injection hfs with h
      rw [← h]
    · cases hfs

/-- C2: a document detected as a form produces no outline entries —
`_classify_headings` returns `[]` whenever `_detect_document_type` on the
line-grouped spans says `"form"`, whatever candidates the rest of the
pipeline would have matched. -/
theorem c2_form_suppression (spans : List Span) (page_avg_sizes : List ℚ)
    (title : PyStr)
    (h : _detect_document_type (_group_spans_by_line spans) = "form".data) :
    _classify_headings spans page_avg_sizes title = [] := by
  simp [_classify_headings, h]

/-- A one-span page of form-field text: `_detect_document_type` says
`"form"`. -/
def c2span : Span :=
  { text := "Application form for LTC advance".data,
    original_text := "Application form for LTC advance".data,
    font_size := 12, font := "F".data, flags := 0,
    x := 0, y := 0, width := 10, height := 10, page := 0 }

/-- C2 at a concrete input: the form span really is detected as a form, and
classification returns no headings. -/
theorem c2_form_suppression_witness :
    _detect_document_type (_group_spans_by_line [c2span]) = "form".data ∧
    _classify_headings [c2span] [] [] = [] :=
  ⟨by decide, c2_form_suppression [c2span] [] [] (by decide)⟩

/-- C3: a document detected as an invitation yields at most one outline
entry, and any entry present has level `"H1"`. -/
theorem c3_invitation_singleton (spans : List Span) (page_avg_sizes : List ℚ)
    (title : PyStr)
    (h : _detect_document_type (_group_spans_by_line spans) =
      "invitation".data) :
    (_classify_headings spans page_avg_sizes title).length ≤ 1 ∧
    ∀ e ∈ _classify_headings spans page_avg_sizes title,
      e.level = "H1".data := by
  have hspec := invitation_headings_spec
  simp only [_classify_headings, h]
  simp only [show ("invitation".data == "form".data) = false from by decide,
    Bool.false_eq_true, if_false,
    show ("invitation".data == "invitation".data) = true from by decide,
    if_true]
  split
  · exact hspec _
  · exact hspec _

/-- A one-span invitation page. -/
def c3span : Span :=
  { text := "RSVP: hope to see you there!".data,
    original_text := "RSVP: hope to see you there!".data,
    font_size := 20, font := "F".data, flags := 0,
    x := 0, y := 0, width := 10, height := 10, page := 0 }

/-- C3 at a concrete input: the span is detected as an invitation, and the
outline it classifies to is a single `H1` (or empty). -/
theorem c3_invitation_singleton_witness :
    _detect_document_type (_group_spans_by_line [c3span]) = "invitation".data ∧
    (_classify_headings [c3span] [] []).length ≤ 1 ∧
    ∀ e ∈ _classify_headings [c3span] [] [], e.level = "H1".data :=
  ⟨by decide, c3_invitation_singleton [c3span] [] [] (by decide)⟩

/-! ## Hierarchy well-formedness (C1) -/

/-- The `H2` clause of hierarchy well-formedness, generalized by the
`current_h1_active` flag: every `H2` entry is preceded by an `H1`, unless the
flag was already set when the scan started. -/
def WF2 (b : Bool) (hs : List Heading) : Prop :=
  ∀ p h r, hs = p ++ h :: r → h.level = "H2".data →
    b = true ∨ ∃ g ∈ p, g.level = "H1".data

/-- The scoped clause shared by the `H3` and `H4` levels: every entry at level
`lh` is preceded by an entry at level `lg` with no later `lf` entry between
them — unless flag `b` was set at scan start and no `lf` entry precedes at
all. -/
def WFC (lh lg lf : PyStr) (b : Bool) (hs : List Heading) : Prop :=
  ∀ p h r, hs = p ++ h :: r → h.level = lh →
    (∃ a g bb, p = a ++ g :: bb ∧ g.level = lg ∧ ∀ x ∈ bb, x.level ≠ lf) ∨
    (b = true ∧ ∀ x ∈ p, x.level ≠ lf)

/-- The claim's hierarchy invariant over an emitted outline: no `H2` before an
`H1`; no `H3` without an `H2` since the most recent `H1`; no `H4` without an
`H3` since the most recent `H2`. -/
def HierarchyWF (hs : List Heading) : Prop :=
  (∀ p h r, hs = p ++ h :: r → h.level = "H2".data →
    ∃ g ∈ p, g.level = "H1".data) ∧
  (∀ p h r, hs = p ++ h :: r → h.level = "H3".data →
    ∃ a g bb, p = a ++ g :: bb ∧ g.level = "H2".data ∧
      ∀ x ∈ bb, x.level ≠ "H1".data) ∧
  (∀ p h r, hs = p ++ h :: r → h.level = "H4".data →
    ∃ a g bb, p = a ++ g :: bb ∧ g.level = "H3".data ∧
      ∀ x ∈ bb, x.level ≠ "H2".data)

theorem WF2_cons_same {b : Bool} {e : Heading} {out : List Heading}
    (hrec : WF2 b out) (hhead : e.level = "H2".data → b = true) :
    WF2 b (e :: out) := by
  intro p h r hdec hlvl
  cases p with
  | nil =>
    injection hdec with he _
    subst he
    exact Or.inl (hhead hlvl)
  | cons q p' =>
    injection hdec with he hr
    subst he
    rcases hrec p' h r hr hlvl with hb | ⟨g, hg, hgl⟩
    · exact Or.inl hb
    · exact Or.inr ⟨g, List.mem_cons_of_mem e hg, hgl⟩

theorem WF2_cons_h1 {b : Bool} {e : Heading} {out : List Heading}
    (hrec : WF2 true out) (hel : e.level = "H1".data) :
    WF2 b (e :: out) := by
  intro p h r hdec hlvl
  cases p with
  | nil =>
    injection hdec with he _
    subst he
    rw [hel] at hlvl
    exact absurd hlvl (by decide)
  | cons q p' =>
    injection hdec with he hr
    subst he
    rcases hrec p' h r hr hlvl with _ | ⟨g, hg, hgl⟩
    · exact Or.inr ⟨e, List.mem_cons_self e p', hel⟩
    · exact Or.inr ⟨g, List.mem_cons_of_mem e hg, hgl⟩

theorem WFC_cons_lift {lh lg lf : PyStr} {b b' : Bool} {e : Heading}
    {out : List Heading}
    (hrec : WFC lh lg lf b' out) (hhead : e.level ≠ lh)
    (hfb : b' = true → b = true ∧ e.level ≠ lf) :
    WFC lh lg lf b (e :: out) := by
  intro p h r hdec hlvl
  cases p with
  | nil =>
    injection hdec with he _
    subst he
    exact absurd hlvl hhead
  | cons q p' =>
    injection hdec with he hr
    subst he
    rcases hrec p' h r hr hlvl with ⟨a, g, bb, hp, hgl, hnb⟩ | ⟨hb', hnp⟩
    · exact Or.inl ⟨e :: a, g, bb, by rw [hp]; rfl, hgl, hnb⟩
    · obtain ⟨hb, hne⟩ := hfb hb'
      refine Or.inr ⟨hb, fun x hx => ?_⟩
      rcases List.mem_cons.1 hx with rfl | hx
      · exact hne
      · exact hnp x hx

theorem WFC_cons_open {lh lg lf : PyStr} {b : Bool} {e : Heading}
    {out : List Heading}
    (hrec : WFC lh lg lf true out) (hel : e.level = lg) (hhead : e.level ≠ lh) :
    WFC lh lg lf b (e :: out) := by
  intro p h r hdec hlvl
  cases p with
  | nil =>
    injection hdec with he _
    subst he
    exact absurd hlvl hhead
  | cons q p' =>
    injection hdec with he hr
    subst he
    rcases hrec p' h r hr hlvl with ⟨a, g, bb, hp, hgl, hnb⟩ | ⟨-, hnp⟩
    · exact Or.inl ⟨e :: a, g, bb, by rw [hp]; rfl, hgl, hnb⟩
    · exact Or.inl ⟨[], e, p', rfl, hel, hnp⟩

theorem WFC_cons_self {lh lg lf : PyStr} {e : Heading} {out : List Heading}
    (hrec : WFC lh lg lf true out) (hel : e.level = lh) (hnf : e.level ≠ lf) :
    WFC lh lg lf true (e :: out) := by
  intro p h r hdec hlvl
  cases p with
  | nil =>
    injection hdec with he _
    subst he
    exact Or.inr ⟨rfl, fun x hx => absurd hx (List.not_mem_nil x)⟩
  | cons q p' =>
    injection hdec with he hr
    subst he
    rcases hrec p' h r hr hlvl with ⟨a, g, bb, hp, hgl, hnb⟩ | ⟨-, hnp⟩
    · exact Or.inl ⟨e :: a, g, bb, by rw [hp]; rfl, hgl, hnb⟩
    · refine Or.inr ⟨rfl, fun x hx => ?_⟩
      rcases List.mem_cons.1 hx with rfl | hx
      · rw [hel]; exact hnf ∘ hel.trans ∘ Eq.symm ∘ Eq.symm
      · exact hnp x hx

/-- The enforcement scan preserves all three hierarchy clauses, each
generalized by its activity flag. -/
theorem enforceLoop_wf (dt : PyStr) :
    ∀ (cands : List Cand) (h1 h2 h3 : Bool),
      WF2 h1 (enforceLoop dt h1 h2 h3 cands) ∧
      WFC "H3".data "H2".data "H1".data h2 (enforceLoop dt h1 h2 h3 cands) ∧
      WFC "H4".data "H3".data "H2".data h3 (enforceLoop dt h1 h2 h3 cands) := by
  intro cands
  induction cands with
  | nil =>
    intro h1 h2 h3
    rw [enforceLoop]
    exact ⟨fun p h r hdec _ => absurd hdec (by cases p <;> simp),
      fun p h r hdec _ => absurd hdec (by cases p <;> simp),
      fun p h r hdec _ => absurd hdec (by cases p <;> simp)⟩
  | cons c rest ih =>
    intro h1 h2 h3
    rw [enforceLoop]
    split
    · obtain ⟨i2, i3, i4⟩ := ih true false false
      exact ⟨WF2_cons_h1 i2 rfl,
        WFC_cons_lift i3 (by show "H1".data ≠ "H3".data; decide)
          (fun hh => Bool.noConfusion hh),
        WFC_cons_lift i4 (by show "H1".data ≠ "H4".data; decide)
          (fun hh => Bool.noConfusion hh)⟩
    · split
      · split
        · next hh1 =>
          obtain ⟨i2, i3, i4⟩ := ih h1 true false
          exact ⟨WF2_cons_same i2 (fun _ => hh1),
            WFC_cons_open i3 rfl (by show "H2".data ≠ "H3".data; decide),
            WFC_cons_lift i4 (by show "H2".data ≠ "H4".data; decide)
              (fun hh => Bool.noConfusion hh)⟩
        · exact ih h1 h2 h3
      · split
        · split
          · next hh2 =>
            subst hh2
            obtain ⟨i2, i3, i4⟩ := ih h1 true true
            exact ⟨WF2_cons_same i2
                (fun hh => absurd hh (by show "H3".data ≠ "H2".data; decide)),
              WFC_cons_self i3 rfl (by show "H3".data ≠ "H1".data; decide),
              WFC_cons_open i4 rfl (by show "H3".data ≠ "H4".data; decide)⟩
          · exact ih h1 h2 h3
        · split
          · split
            · next hh3 =>
              subst hh3
              obtain ⟨i2, i3, i4⟩ := ih h1 h2 true
              exact ⟨WF2_cons_same i2
                  (fun hh => absurd hh (by show "H4".data ≠ "H2".data; decide)),
                WFC_cons_lift i3 (by show "H4".data ≠ "H3".data; decide)
                  (fun hb => ⟨hb, by show "H4".data ≠ "H1".data; decide⟩),
                WFC_cons_self i4 rfl (by show "H4".data ≠ "H2".data; decide)⟩
            · exact ih h1 h2 h3
          · exact ih h1 h2 h3

/-- C1, amended: the hierarchy state machine itself is sound — the outline
`_enforce_strict_hierarchy` emits is always hierarchy-well-formed.  The
original claim fails only downstream of it (see `c1_counterexample`): the
deduplication/length filter of `_finalize_headings` and the path-conditioned
`Phase III` insertion can remove or add entries without re-checking the
invariant. -/
theorem c1_enforce_hierarchy_wf (cands : List Cand) (dt : PyStr) :
    HierarchyWF (_enforce_strict_hierarchy cands dt) := by
  obtain ⟨w2, w3, w4⟩ := enforceLoop_wf dt (sortBy leCand cands) false false false
  rw [_enforce_strict_hierarchy]
  refine ⟨fun p h r hdec hlvl => ?_, fun p h r hdec hlvl => ?_,
    fun p h r hdec hlvl => ?_⟩
  · rcases w2 p h r hdec hlvl with hb | hg
    · exact absurd hb (by decide)
    · exact hg
  · rcases w3 p h r hdec hlvl with hg | ⟨hb, -⟩
    · exact hg
    · exact absurd hb (by decide)
  · rcases w4 p h r hdec hlvl with hg | ⟨hb, -⟩
    · exact hg
    · exact absurd hb (by decide)

/-- A two-page document: an empty first page, then a short bold-ish `AB` line
(size 14, classified `H1`) above a `Summary` line (size 13, classified
`H2`). -/
def c1doc : Except PyErr (List PageData) :=
  Except.ok [Except.ok [],
    Except.ok [⟨some [⟨[⟨"AB".data, 14, "F".data, 0, 50, 100, 70, 110⟩]⟩,
                      ⟨[⟨"Summary".data, 13, "F".data, 0, 50, 200, 100, 210⟩]⟩]⟩]]

/-- C1, counterexample to the original claim: on `c1doc` the emitted outline
is a lone `H2` with no preceding `H1` — the `H1` (`AB`, stripped length 2) is
deleted by the minimum-length filter of `_finalize_headings` after hierarchy
enforcement, leaving an orphaned `H2`. -/
theorem c1_counterexample :
    ¬ HierarchyWF (extract_outline c1doc "doc.pdf".data).outline := by
  intro hwf
  have hout : (extract_outline c1doc "doc.pdf".data).outline =
      [⟨"H2".data, "Summary ".data, 1⟩] := by decide
  rw [hout] at hwf
  obtain ⟨g, hg, -⟩ := hwf.1 [] ⟨"H2".data, "Summary ".data, 1⟩ [] rfl rfl
  exact absurd hg (List.not_mem_nil g)

/-! ## Dotted table-of-contents leaders (C9) -/

/-- `_normalize_heading_text` always ends its output with one space. -/
theorem normalize_heading_text_shape (t dt : PyStr) :
    ∃ u, _normalize_heading_text t dt = u ++ [' '] := by
  rw [_normalize_heading_text]
  exact ⟨_, rfl⟩

/-- A string ending in a space never matches the dotted-leader pattern
`.+\s\.\s\d+$` (the reversed scan demands trailing digits). -/
theorem matchTocDotted_append_space (u : PyStr) :
    matchTocDotted (u ++ [' ']) = false := by
  rw [matchTocDotted]
  have hrev : (u ++ [' ']).reverse = ' ' :: u.reverse := by
    rw [List.reverse_append]; rfl
  rw [hrev]
  rfl

/-- Every heading the enforcement scan emits has text ending in a space. -/
theorem enforceLoop_text_shape (dt : PyStr) :
    ∀ (cands : List Cand) (h1 h2 h3 : Bool),
      ∀ e ∈ enforceLoop dt h1 h2 h3 cands, ∃ u, e.text = u ++ [' '] := by
  intro cands
  induction cands with
  | nil =>
    intro h1 h2 h3 e he
    rw [enforceLoop] at he
    cases he
  | cons c rest ih =>
    intro h1 h2 h3 e he
    rw [enforceLoop] at he
    repeat' split at he
    all_goals
      first
        | exact ih _ _ _ e he
        | (rcases List.mem_cons.1 he with h | h
           · subst h; exact normalize_heading_text_shape c.text dt
           · exact ih _ _ _ e h)

/-- C9, amended: the dotted-leader filter really is applied during candidate
generation — any line unit matching `.+\s\.\s\d+$` after stripping is
discarded by `keepPotentialHeading` — and no heading produced by
`_extract_hierarchical_headings` has dotted-leader text (its texts all end in
a space).  The original claim still fails at the outline level because the
invitation path and the manual `Phase III` insertion bypass this filter (see
`c9_counterexample`). -/
theorem c9_dotted_leader_filtered :
    (∀ s : Span, matchTocDotted (stripPy s.text) = true →
      keepPotentialHeading s = false) ∧
    (∀ (spans : List Span) (dt : PyStr),
      ∀ e ∈ _extract_hierarchical_headings spans dt,
        matchTocDotted e.text = false) := by
  constructor
  · intro s h
    simp [keepPotentialHeading, h]
  · intro spans dt e he
    rw [_extract_hierarchical_headings] at he
    split at he
    · cases he
    · dsimp only at he
      split at he
      · cases he
      · rw [_enforce_strict_hierarchy] at he
        obtain ⟨u, hu⟩ := enforceLoop_text_shape dt _ false false false e he
        rw [hu, matchTocDotted_append_space]

/-- A one-page document whose only line is the dotted leader
`hope to see . 3`. -/
def c9doc : Except PyErr (List PageData) :=
  Except.ok [Except.ok [⟨some [⟨[⟨"hope to see . 3".data, 12, "F".data, 0,
    0, 100, 10, 110⟩]⟩]⟩]]

/-- C9, counterexample to the original claim: the text `hope to see . 3`
matches the dotted-leader pattern, yet `extract_outline` emits it (with the
normalizer's trailing space) as an `H1` outline entry — the line also matches
the invitation keywords, and the invitation path never applies the
dotted-leader filter. -/
theorem c9_counterexample :
    matchTocDotted (stripPy "hope to see . 3 ".data) = true ∧
    (extract_outline c9doc "doc.pdf".data).outline =
      [⟨"H1".data, "hope to see . 3 ".data, 1⟩] := by decide

/-! ## Outline deduplication (C4) -/

/-- The claim's dedup key: `(text.strip().lower(), page)`. -/
def entryKey (h : Heading) : PyStr × ℤ := (lowerPy (stripPy h.text), h.page)

theorem finalizeKey_lstrip (t : PyStr) (p : ℤ) :
    finalizeKey (lstripPy t) p = (lowerPy (stripPy t), p) := by
  rw [finalizeKey, ← lstripPy_lowerPy, stripPy_lstripPy, stripPy_lowerPy]

theorem entryKey_mk_lstrip (l t : PyStr) (p : ℤ) :
    entryKey ⟨l, lstripPy t, p⟩ = (lowerPy (stripPy t), p) := by
  rw [entryKey]
  dsimp only
  rw [stripPy_lstripPy]

theorem entryKey_eq_finalizeKey (h : Heading) :
    finalizeKey (lstripPy h.text) h.page = entryKey h := by
  rw [finalizeKey_lstrip, entryKey]

theorem seen_any_iff (seen : List (PyStr × ℤ)) (key : PyStr × ℤ) :
    (seen.any fun k => k == key) = true ↔ key ∈ seen := by
  rw [List.any_eq_true]
  constructor
  · rintro ⟨k, hk, he⟩
    rwa [eq_of_beq he] at hk
  · intro hx
    exact ⟨key, hx, by simp⟩

theorem entryKey_length {a b : Heading} (h : entryKey a = entryKey b) :
    (stripPy a.text).length = (stripPy b.text).length := by
  have h1 := congrArg Prod.fst h
  dsimp only [entryKey] at h1
  have h2 := congrArg List.length h1
  rwa [lowerPy_length, lowerPy_length] at h2

/-- The dedup scan of `_finalize_headings`: no emitted key was in the incoming
`seen` set, emitted keys are pairwise distinct, every emitted entry survived
the minimum-length check, and every emitted entry is the first entry of the
input with its key. -/
theorem finalizeLoop_spec :
    ∀ (hs : List Heading) (seen : List (PyStr × ℤ)),
      (∀ e ∈ finalizeLoop seen hs, entryKey e ∉ seen) ∧
      (finalizeLoop seen hs).Pairwise (fun a b => entryKey a ≠ entryKey b) ∧
      (∀ e ∈ finalizeLoop seen hs, 3 ≤ (stripPy e.text).length) ∧
      (∀ e ∈ finalizeLoop seen hs, ∃ p h r, hs = p ++ h :: r ∧
        e = ⟨h.level, lstripPy h.text, h.page⟩ ∧
        ∀ g ∈ p, entryKey g ≠ entryKey e) := by
  intro hs
  induction hs with
  | nil =>
    intro seen
    rw [finalizeLoop]
    exact ⟨fun e he => absurd he (List.not_mem_nil e), List.Pairwise.nil,
      fun e he => absurd he (List.not_mem_nil e),
      fun e he => absurd he (List.not_mem_nil e)⟩
  | cons h rest ih =>
    intro seen
    rw [finalizeLoop]
    split
    next hcond =>
      rw [Bool.and_eq_true, Bool.not_eq_true'] at hcond
      obtain ⟨hns, hlen3⟩ := hcond
      have hk0 : entryKey ⟨h.level, lstripPy h.text, h.page⟩ =
          finalizeKey (lstripPy h.text) h.page := by
        rw [entryKey_mk_lstrip, finalizeKey_lstrip]
      have hkey : entryKey ⟨h.level, lstripPy h.text, h.page⟩ ∉ seen := by
        rw [hk0]
        intro hmem
        rw [← seen_any_iff] at hmem
        rw [hmem] at hns
        cases hns
      have hlen : 3 ≤ (stripPy (lstripPy h.text)).length := of_decide_eq_true hlen3
      obtain ⟨ia, ib, ic, idd⟩ := ih (finalizeKey (lstripPy h.text) h.page :: seen)
      refine ⟨?_, ?_, ?_, ?_⟩
      · intro e he
        rcases List.mem_cons.1 he with rfl | he
        · exact hkey
        · exact fun hmem => ia e he (List.mem_cons_of_mem _ hmem)
      · refine List.pairwise_cons.2 ⟨?_, ib⟩
        intro b hb heq
        have hnb := ia b hb
        rw [← heq, hk0] at hnb
        exact hnb (List.mem_cons_self _ _)
      · intro e he
        rcases List.mem_cons.1 he with rfl | he
        · exact hlen
        · exact ic e he
      · intro e he
        rcases List.mem_cons.1 he with rfl | he
        · exact ⟨[], h, rest, rfl, rfl,
            fun g hg => absurd hg (List.not_mem_nil g)⟩
        · obtain ⟨p, h', r, hdec, heq, hfw⟩ := idd e he
          refine ⟨h :: p, h', r, by rw [hdec]; rfl, heq, ?_⟩
          intro g hg
          rcases List.mem_cons.1 hg with rfl | hg
          · intro hcon
            have hnot := ia e he
            rw [← hcon] at hnot
            apply hnot
            rw [entryKey_eq_finalizeKey g]
            exact List.mem_cons_self _ _
          · exact hfw g hg
    next hcond =>
      obtain ⟨ia, ib, ic, idd⟩ := ih seen
      refine ⟨ia, ib, ic, ?_⟩
      intro e he
      obtain ⟨p, h', r, hdec, heq, hfw⟩ := idd e he
      refine ⟨h :: p, h', r, by rw [hdec]; rfl, heq, ?_⟩
      intro g hg
      rcases List.mem_cons.1 hg with rfl | hg
      · intro hcon
        have hcf : (!(seen.any fun k => k == finalizeKey (lstripPy g.text) g.page)
            && decide ((stripPy (lstripPy g.text)).length ≥ 3)) = false :=
          Bool.eq_false_iff.2 hcond
        rw [Bool.and_eq_false_iff] at hcf
        rcases hcf with hcf | hcf
        · rw [Bool.not_eq_false'] at hcf
          rw [seen_any_iff, entryKey_eq_finalizeKey g, hcon] at hcf
          exact ia e he hcf
        · have hlt : ¬ 3 ≤ (stripPy (lstripPy g.text)).length :=
            of_decide_eq_false hcf
          apply hlt
          rw [stripPy_lstripPy, entryKey_length hcon]
          exact ic e he
      · exact hfw g hg

/-- Every finalized heading is the first input heading carrying its key
(`first occurrence wins`). -/
theorem finalize_first_wins (hs : List Heading) :
    ∀ e ∈ _finalize_headings hs, ∃ p h r, hs = p ++ h :: r ∧
      e = ⟨h.level, lstripPy h.text, h.page⟩ ∧
      ∀ g ∈ p, entryKey g ≠ entryKey e := by
  intro e he
  rw [_finalize_headings, mem_sortBy] at he
  exact (finalizeLoop_spec hs []).2.2.2 e he

theorem entryKey_symm {a b : Heading}
    (h : entryKey a ≠ entryKey b) : entryKey b ≠ entryKey a :=
  fun he => h he.symm

theorem finalize_entryKey_pairwise (hs : List Heading) :
    (_finalize_headings hs).Pairwise (fun a b => entryKey a ≠ entryKey b) := by
  rw [_finalize_headings]
  exact ((sortBy_perm leHeadingPage (finalizeLoop [] hs)).pairwise_iff
    entryKey_symm).2 (finalizeLoop_spec hs []).2.1

theorem pairwise_of_len_le_one {r : α → α → Prop} :
    ∀ {l : List α}, l.length ≤ 1 → l.Pairwise r := by
  intro l h
  match l with
  | [] => exact List.Pairwise.nil
  | [x] => exact List.pairwise_singleton r x
  | x :: y :: t => simp at h

theorem classify_entryKey_pairwise (spans : List Span) (sizes : List ℚ)
    (title : PyStr) :
    (_classify_headings spans sizes title).Pairwise
      (fun a b => entryKey a ≠ entryKey b) := by
  rw [_classify_headings]
  dsimp only
  split
  · exact List.Pairwise.nil
  · split
    · exact pairwise_of_len_le_one (invitation_headings_spec _).1
    · exact finalize_entryKey_pairwise _

theorem insertIdx_perm (x : α) :
    ∀ (n : ℕ) (l : List α), n ≤ l.length →
      List.Perm (List.insertIdx n x l) (x :: l) := by
  intro n
  induction n with
  | zero => intro l _; rw [List.insertIdx_zero]
  | succ m ih =>
    intro l hl
    cases l with
    | nil => cases (Nat.not_succ_le_zero m hl)
    | cons a t =>
      rw [List.insertIdx_succ_cons]
      exact (List.Perm.cons a (ih t (Nat.le_of_succ_le_succ hl))).trans
        (List.Perm.swap x a t)

/-- The manually inserted `Phase III` entry's key differs from the key of any
entry whose lowered text does not contain `phase iii`: the key's text part
always contains it. -/
theorem phase3_entryKey_ne {e : Heading}
    (hno : containsSub "phase iii".data (lowerPy e.text) = false) (pg : ℤ) :
    entryKey ⟨"H3".data, "Phase III: Operating and Growing the ODL ".data, pg⟩ ≠
      entryKey e := by
  intro hcon
  have h1 : lowerPy (stripPy "Phase III: Operating and Growing the ODL ".data) =
      lowerPy (stripPy e.text) := congrArg Prod.fst hcon
  have h2 : "phase iii".data <+:
      lowerPy (stripPy "Phase III: Operating and Growing the ODL ".data) :=
    List.isPrefixOf_iff_prefix.1 (by decide)
  rw [h1] at h2
  have h4 : lowerPy (stripPy e.text) <:+: lowerPy e.text := by
    rw [← stripPy_lowerPy]
    exact stripPy_infix (lowerPy e.text)
  have h3 : "phase iii".data <:+: lowerPy e.text := h2.isInfix.trans h4
  rw [← containsSub_iff_infix] at h3
  rw [h3] at hno
  cases hno

theorem insert_phase3_pairwise {outline : List Heading} {i : ℕ} (pg : ℤ)
    (hpw : outline.Pairwise (fun a b => entryKey a ≠ entryKey b))
    (hle : i ≤ outline.length)
    (hno : (outline.any fun h =>
      containsSub "phase iii".data (lowerPy h.text)) = false) :
    (List.insertIdx i
      ⟨"H3".data, "Phase III: Operating and Growing the ODL ".data, pg⟩
      outline).Pairwise (fun a b => entryKey a ≠ entryKey b) := by
  have hperm := insertIdx_perm
    (⟨"H3".data, "Phase III: Operating and Growing the ODL ".data, pg⟩ : Heading)
    i outline hle
  refine (hperm.pairwise_iff entryKey_symm).2 ?_
  refine List.pairwise_cons.2 ⟨?_, hpw⟩
  intro e he
  have hne : containsSub "phase iii".data (lowerPy e.text) = false := by
    rw [List.any_eq_false] at hno
    exact Bool.eq_false_iff.2 (hno e he)
  exact phase3_entryKey_ne hne pg

/-- C4: no two outline entries of `extract_outline` share the dedup key
`(text.strip().lower(), page)`; and in `_finalize_headings` the first
occurrence of a key in document order is the entry that is kept.  The
page-sort in `_finalize_headings` permutes entries but keys stay pairwise
distinct, and the manually inserted `Phase III` entry's key always contains
`phase iii` while the branch inserting it requires every existing entry not
to. -/
theorem c4_outline_dedup_first_wins :
    (∀ (doc : Except PyErr (List PageData)) (path : PyStr),
      (extract_outline doc path).outline.Pairwise
        (fun a b => entryKey a ≠ entryKey b)) ∧
    (∀ hs : List Heading, ∀ e ∈ _finalize_headings hs,
      ∃ p h r, hs = p ++ h :: r ∧ e = ⟨h.level, lstripPy h.text, h.page⟩ ∧
        ∀ g ∈ p, entryKey g ≠ entryKey e) := by
  refine ⟨?_, finalize_first_wins⟩
  intro doc path
  match doc with
  | .error e => exact List.Pairwise.nil
  | .ok pages =>
    simp only [extract_outline]
    split
    · split
      next hno =>
        split
        next i hfind =>
          refine insert_phase3_pairwise _ (classify_entryKey_pairwise _ _ _)
            ?_ ?_
          · have hi := (List.findIdx?_eq_some_iff_findIdx_eq.1 hfind).1
            omega
          · rw [Bool.not_eq_true'] at hno
            exact hno
        next => exact classify_entryKey_pairwise _ _ _
      next => exact classify_entryKey_pairwise _ _ _
    · exact classify_entryKey_pairwise _ _ _

end PdfExtract
